import Mathlib

/-!
Unscented Kalman filter (`src/src/ukf.cpp`).

A shallow embedding of the class `UKF` of `ukf.cpp` and a verification of
properties of its four methods `ProcessMeasurement`, `Prediction`,
`UpdateLidar` and `UpdateRadar`.

Modelling choices.

* `double` is an ordered field `R`; the theorems are stated over the real
  numbers, that is, in exact arithmetic.  Every definition is generic in `R`,
  so it also runs over the rationals.
* The C library functions `sin`, `cos`, `atan2`, `sqrt` and Eigen's Cholesky
  factor `llt().matrixL()` are external to the repository; they are the fields
  of the record `MathLib`.  `MathLib.real` interprets the four C functions over
  the reals and leaves the Cholesky factor a parameter.
* `VectorXd` of length `n` is `Fin n → R`; `MatrixXd` is `Matrix`.
* A `for` loop is a left fold over the list of its indices.
* `n_x_ = 5` and `n_aug_ = 7` are written by the constructor only and fix the
  shapes of all members; they are constants.  All other members are fields.
* Timestamps (`long long`) are integers; signed overflow, which is undefined
  in C++, is outside the model.
-/

open Matrix

/-- State dimension, `n_x_ = 5` (ukf.cpp line 52). -/
abbrev n_x_ : Nat := 5

/-- Augmented dimension, `n_aug_ = 7` (ukf.cpp line 55). -/
abbrev n_aug_ : Nat := 7

/-- The tag `MeasurementPackage::SensorType`. -/
inductive SensorType where
  | LASER
  | RADAR
deriving DecidableEq, Repr

/-- The record `MeasurementPackage`: a timestamp in microseconds, the sensor
tag and the raw values, read by index. -/
structure MeasurementPackage (R : Type) where
  timestamp_ : Int
  sensor_type_ : SensorType
  raw_measurements_ : Nat → R

/-- External numeric routines used by `ukf.cpp`: the C functions `sin`, `cos`,
`atan2` (argument order `atan2 y x`), `sqrt`, and Eigen's lower Cholesky
factor `A.llt().matrixL()` of a 7x7 matrix. -/
structure MathLib (R : Type) where
  sin : R → R
  cos : R → R
  atan2 : R → R → R
  sqrt : R → R
  llt : Matrix (Fin n_aug_) (Fin n_aug_) R → Matrix (Fin n_aug_) (Fin n_aug_) R

/-- The members of class `UKF`. -/
structure UKF (R : Type) where
  is_initialized_ : Bool
  use_laser_ : Bool
  use_radar_ : Bool
  x_ : Fin n_x_ → R
  P_ : Matrix (Fin n_x_) (Fin n_x_) R
  Xsig_pred_ : Matrix (Fin n_x_) (Fin (2 * n_aug_ + 1)) R
  time_us_ : Int
  std_a_ : R
  std_yawdd_ : R
  std_laspx_ : R
  std_laspy_ : R
  std_radr_ : R
  std_radphi_ : R
  std_radrd_ : R
  lambda_ : R
  weights_ : Fin (2 * n_aug_ + 1) → R
  NIS_score : R

section Code

variable {R : Type} [LinearOrderedField R]

/-- The constructor `UKF::UKF()` (lines 14-71).  It allocates `x_`, `P_`,
`weights_`, `Xsig_pred_` without writing them and does not touch `time_us_`:
those members keep whatever `mem` holds. -/
def UKF.new (mem : UKF R) : UKF R :=
  { mem with
    use_laser_ := true
    use_radar_ := true
    std_a_ := 0.5
    std_yawdd_ := 0.5
    std_laspx_ := 0.15
    std_laspy_ := 0.15
    std_radr_ := 0.3
    std_radphi_ := 0.03
    std_radrd_ := 0.3
    lambda_ := ((3 - (n_aug_ : Int) : Int) : R)
    NIS_score := 0
    is_initialized_ := false }

/-- The angle normalisation `atan2(sin(d), cos(d))` (lines 228, 351, 377, 381, 390). -/
def normalizeAngle (L : MathLib R) (d : R) : R :=
  L.atan2 (L.sin d) (L.cos d)

/-- The weights of lines 211-213 for a spreading parameter `lambda` and an
augmented dimension `n_aug`: fill with `0.5/(lambda+n_aug)`, then overwrite
entry 0 with `lambda/(lambda+n_aug)`. -/
def weightsOf (n_aug : Nat) (lambda : R) : Fin (2 * n_aug + 1) → R :=
  let weight_n : R := 0.5 / (lambda + n_aug)
  Function.update (fun _ => weight_n) 0 (lambda / (lambda + n_aug))

/-- Lines 149-151: the state mean followed by two zeros. -/
def UKF.x_aug (f : UKF R) : Fin n_aug_ → R :=
  fun i => if h : i.val < n_x_ then f.x_ ⟨i.val, h⟩ else 0

/-- Lines 153-156: zero fill, `P_` in the top-left 5x5 corner, then the two
process-noise variances at (5,5) and (6,6). -/
def UKF.P_aug (f : UKF R) : Matrix (Fin n_aug_) (Fin n_aug_) R :=
  fun i j =>
    if i.val = 6 ∧ j.val = 6 then f.std_yawdd_ * f.std_yawdd_
    else if i.val = 5 ∧ j.val = 5 then f.std_a_ * f.std_a_
    else if h : i.val < n_x_ ∧ j.val < n_x_ then f.P_ ⟨i.val, h.1⟩ ⟨j.val, h.2⟩
    else 0

/-- One pass of the loop of lines 164-167: columns `i+1` and `i+1+n_aug_`. -/
def sigmaStep (L : MathLib R) (lambda : R) (x_aug : Fin n_aug_ → R)
    (P_sqrt : Matrix (Fin n_aug_) (Fin n_aug_) R)
    (Xsig_aug : Matrix (Fin n_aug_) (Fin (2 * n_aug_ + 1)) R) (i : Fin n_aug_) :
    Matrix (Fin n_aug_) (Fin (2 * n_aug_ + 1)) R :=
  let X1 := Xsig_aug.updateColumn ⟨i.val + 1, by omega⟩
    (x_aug + L.sqrt (lambda + n_aug_) • (fun r => P_sqrt r i))
  X1.updateColumn ⟨i.val + 1 + n_aug_, by omega⟩
    (x_aug - L.sqrt (lambda + n_aug_) • (fun r => P_sqrt r i))

/-- Lines 161-167: the augmented sigma points.  `MatrixXd(n_aug_, 2*n_aug_+1)`
is allocated without being written; `X0` is its content then. -/
def augmentedSigmaPoints (L : MathLib R) (lambda : R) (x_aug : Fin n_aug_ → R)
    (P_sqrt : Matrix (Fin n_aug_) (Fin n_aug_) R)
    (X0 : Matrix (Fin n_aug_) (Fin (2 * n_aug_ + 1)) R) :
    Matrix (Fin n_aug_) (Fin (2 * n_aug_ + 1)) R :=
  (List.finRange n_aug_).foldl (sigmaStep L lambda x_aug P_sqrt)
    (X0.updateColumn 0 x_aug)

/-- Lines 183-184, the branch `fabs(yawd) > 0.001`: the new `(px, py)`. -/
def ctrvTurn (L : MathLib R) (px py v yaw yawd delta_t : R) : R × R :=
  (px + v / yawd * (L.sin (yaw + yawd * delta_t) - L.sin yaw),
   py + v / yawd * (L.cos yaw - L.cos (yaw + yawd * delta_t)))

/-- Lines 187-188, the other branch: the new `(px, py)`. -/
def ctrvStraight (L : MathLib R) (px py v yaw delta_t : R) : R × R :=
  (px + v * delta_t * L.cos yaw, py + v * delta_t * L.sin yaw)

/-- The body of the loop of lines 170-209 for one augmented sigma column `c`. -/
def predictSigmaPoint (L : MathLib R) (delta_t : R) (c : Fin n_aug_ → R) : Fin n_x_ → R :=
  let px := c 0
  let py := c 1
  let v := c 2
  let yaw := c 3
  let yawd := c 4
  let nu_a := c 5
  let nu_yawdd := c 6
  let p : R × R :=
    if |yawd| > 0.001 then ctrvTurn L px py v yaw yawd delta_t
    else ctrvStraight L px py v yaw delta_t
  let v_p := v
  let yaw_p := yaw + yawd * delta_t
  let yawd_p := yawd
  let delta_t_pow_2 := delta_t * delta_t
  ![p.1 + 0.5 * delta_t_pow_2 * L.cos yaw * nu_a,
    p.2 + 0.5 * delta_t_pow_2 * L.sin yaw * nu_a,
    v_p + delta_t * nu_a,
    yaw_p + 0.5 * delta_t_pow_2 * nu_yawdd,
    yawd_p + delta_t * nu_yawdd]

/-- Lines 170-209: every column of `Xsig_pred_` is overwritten in turn. -/
def predictSigmaPoints (L : MathLib R) (delta_t : R)
    (Xsig_aug : Matrix (Fin n_aug_) (Fin (2 * n_aug_ + 1)) R)
    (Xsig_pred : Matrix (Fin n_x_) (Fin (2 * n_aug_ + 1)) R) :
    Matrix (Fin n_x_) (Fin (2 * n_aug_ + 1)) R :=
  (List.finRange (2 * n_aug_ + 1)).foldl
    (fun X i => X.updateColumn i (predictSigmaPoint L delta_t (fun r => Xsig_aug r i)))
    Xsig_pred

/-- The loops `v.fill(0.0); for i: v += weights_(i) * M.col(i)` of lines
215-220, 256-259 and 338-341. -/
def weightedMean {n : Nat} (w : Fin (2 * n_aug_ + 1) → R)
    (M : Matrix (Fin n) (Fin (2 * n_aug_ + 1)) R) : Fin n → R :=
  (List.finRange (2 * n_aug_ + 1)).foldl (fun x i => x + w i • (fun r => M r i)) 0

/-- The difference of line 225 with its heading entry normalised (line 228). -/
def predictionDiff (L : MathLib R) (Xsig_pred : Matrix (Fin n_x_) (Fin (2 * n_aug_ + 1)) R)
    (x : Fin n_x_ → R) (i : Fin (2 * n_aug_ + 1)) : Fin n_x_ → R :=
  let diff : Fin n_x_ → R := (fun r => Xsig_pred r i) - x
  Function.update diff 3 (normalizeAngle L (diff 3))

/-- Lines 222-231: the predicted covariance from the weights, the propagated
sigma points and the predicted mean. -/
def predictedCovariance (L : MathLib R) (w : Fin (2 * n_aug_ + 1) → R)
    (Xsig_pred : Matrix (Fin n_x_) (Fin (2 * n_aug_ + 1)) R) (x : Fin n_x_ → R) :
    Matrix (Fin n_x_) (Fin n_x_) R :=
  (List.finRange (2 * n_aug_ + 1)).foldl
    (fun P i =>
      let diff := predictionDiff L Xsig_pred x i
      P + vecMulVec (w i • diff) diff)
    0

/-- The method `UKF::Prediction` (lines 141-234).  The freshly allocated
`Xsig_aug` starts as the zero matrix here; all its columns are overwritten. -/
def UKF.Prediction (L : MathLib R) (f : UKF R) (delta_t : R) : UKF R :=
  let x_aug := f.x_aug
  let P_aug := f.P_aug
  let P_sqrt := L.llt P_aug
  let Xsig_aug := augmentedSigmaPoints L f.lambda_ x_aug P_sqrt 0
  let Xsig_pred := predictSigmaPoints L delta_t Xsig_aug f.Xsig_pred_
  let weights := weightsOf n_aug_ f.lambda_
  let x := weightedMean weights Xsig_pred
  let P := predictedCovariance L weights Xsig_pred x
  { f with Xsig_pred_ := Xsig_pred, weights_ := weights, x_ := x, P_ := P }

/-- Eigen's `inverse()` in exact arithmetic: the adjugate over the determinant.
This is the inverse where the determinant is nonzero; for a singular matrix the
C++ result is not a number, and the value here (zero, by `0⁻¹ = 0`) stands for
nothing.  Statements about values that depend on `inverse S` carry the
hypothesis that `S` is invertible. -/
def inverse {n : Nat} (A : Matrix (Fin n) (Fin n) R) : Matrix (Fin n) (Fin n) R :=
  (A.det)⁻¹ • A.adjugate

/-- Lines 244-252: the laser measurement model keeps `px` and `py`. -/
def lidarZsig (Xsig_pred : Matrix (Fin n_x_) (Fin (2 * n_aug_ + 1)) R) :
    Matrix (Fin 2) (Fin (2 * n_aug_ + 1)) R :=
  (List.finRange (2 * n_aug_ + 1)).foldl
    (fun Z i =>
      let px := Xsig_pred 0 i
      let py := Xsig_pred 1 i
      Z.updateColumn i ![px, py])
    0

/-- Lines 261-275: the innovation covariance of the laser update, `R` added. -/
def UKF.lidarS (f : UKF R) : Matrix (Fin 2) (Fin 2) R :=
  let Zsig := lidarZsig f.Xsig_pred_
  let z_pred := weightedMean f.weights_ Zsig
  let S : Matrix (Fin 2) (Fin 2) R :=
    (List.finRange (2 * n_aug_ + 1)).foldl
      (fun S i =>
        let diff : Fin 2 → R := (fun r => Zsig r i) - z_pred
        S + vecMulVec (f.weights_ i • diff) diff)
      0
  let Rm : Matrix (Fin 2) (Fin 2) R :=
    !![f.std_laspx_ * f.std_laspx_, 0;
       0, f.std_laspy_ * f.std_laspy_]
  S + Rm

/-- Lines 281-291: the cross correlation of the laser update. -/
def UKF.lidarTc (f : UKF R) : Matrix (Fin n_x_) (Fin 2) R :=
  let Zsig := lidarZsig f.Xsig_pred_
  let z_pred := weightedMean f.weights_ Zsig
  (List.finRange (2 * n_aug_ + 1)).foldl
    (fun Tc i =>
      let z_diff : Fin 2 → R := (fun r => Zsig r i) - z_pred
      let x_diff : Fin n_x_ → R := (fun r => f.Xsig_pred_ r i) - f.x_
      Tc + vecMulVec (f.weights_ i • x_diff) z_diff)
    0

/-- Line 295: the innovation of the laser update. -/
def UKF.lidarY (f : UKF R) (meas_package : MeasurementPackage R) : Fin 2 → R :=
  let z_pred := weightedMean f.weights_ (lidarZsig f.Xsig_pred_)
  let z : Fin 2 → R := ![meas_package.raw_measurements_ 0, meas_package.raw_measurements_ 1]
  z - z_pred

/-- The method `UKF::UpdateLidar` (lines 240-309); the printing of line 299 is
left out. -/
def UKF.UpdateLidar (_L : MathLib R) (f : UKF R) (meas_package : MeasurementPackage R) :
    UKF R :=
  let S := f.lidarS
  let Tc := f.lidarTc
  let K := Tc * inverse S
  let y := f.lidarY meas_package
  { f with
    NIS_score := y ⬝ᵥ (inverse S *ᵥ y)
    x_ := f.x_ + K *ᵥ y
    P_ := f.P_ - K * S * Kᵀ }

/-- Lines 319-334: the radar measurement model, column by column.  The range
rate divides by `rho`; in a column with `rho = 0` the C++ result is not a number
and the value here (zero, by `x / 0 = 0`) stands for nothing.  Statements about
values that depend on this projection carry the hypothesis that every column has
a nonzero range. -/
def radarZsig (L : MathLib R) (Xsig_pred : Matrix (Fin n_x_) (Fin (2 * n_aug_ + 1)) R) :
    Matrix (Fin 3) (Fin (2 * n_aug_ + 1)) R :=
  (List.finRange (2 * n_aug_ + 1)).foldl
    (fun Z i =>
      let px := Xsig_pred 0 i
      let py := Xsig_pred 1 i
      let v := Xsig_pred 2 i
      let yaw := Xsig_pred 3 i
      let vx := L.cos yaw * v
      let vy := L.sin yaw * v
      let rho := L.sqrt (px * px + py * py)
      Z.updateColumn i ![rho, L.atan2 py px, (px * vx + py * vy) / rho])
    0

/-- The residual of lines 348-351 and 374-377: bearing entry normalised. -/
def radarZdiff (L : MathLib R) (Zsig : Matrix (Fin 3) (Fin (2 * n_aug_ + 1)) R)
    (z_pred : Fin 3 → R) (i : Fin (2 * n_aug_ + 1)) : Fin 3 → R :=
  let diff : Fin 3 → R := (fun r => Zsig r i) - z_pred
  Function.update diff 1 (normalizeAngle L (diff 1))

/-- Lines 379-381: the state difference, with entry 1 normalised as written. -/
def radarXdiff (L : MathLib R) (Xsig_pred : Matrix (Fin n_x_) (Fin (2 * n_aug_ + 1)) R)
    (x : Fin n_x_ → R) (i : Fin (2 * n_aug_ + 1)) : Fin n_x_ → R :=
  let x_diff : Fin n_x_ → R := (fun r => Xsig_pred r i) - x
  Function.update x_diff 1 (normalizeAngle L (x_diff 1))

/-- Lines 343-362: the innovation covariance of the radar update, `R` added. -/
def UKF.radarS (L : MathLib R) (f : UKF R) : Matrix (Fin 3) (Fin 3) R :=
  let Zsig := radarZsig L f.Xsig_pred_
  let z_pred := weightedMean f.weights_ Zsig
  let S : Matrix (Fin 3) (Fin 3) R :=
    (List.finRange (2 * n_aug_ + 1)).foldl
      (fun S i =>
        let diff := radarZdiff L Zsig z_pred i
        S + vecMulVec (f.weights_ i • diff) diff)
      0
  let Rm : Matrix (Fin 3) (Fin 3) R :=
    !![f.std_radr_ * f.std_radr_, 0, 0;
       0, f.std_radphi_ * f.std_radphi_, 0;
       0, 0, f.std_radrd_ * f.std_radrd_]
  S + Rm

/-- Lines 369-384: the cross correlation of the radar update. -/
def UKF.radarTc (L : MathLib R) (f : UKF R) : Matrix (Fin n_x_) (Fin 3) R :=
  let Zsig := radarZsig L f.Xsig_pred_
  let z_pred := weightedMean f.weights_ Zsig
  (List.finRange (2 * n_aug_ + 1)).foldl
    (fun Tc i =>
      let z_diff := radarZdiff L Zsig z_pred i
      let x_diff := radarXdiff L f.Xsig_pred_ f.x_ i
      Tc + vecMulVec (f.weights_ i • x_diff) z_diff)
    0

/-- Lines 388-390: the innovation of the radar update, bearing normalised. -/
def UKF.radarY (L : MathLib R) (f : UKF R) (meas_package : MeasurementPackage R) :
    Fin 3 → R :=
  let z_pred := weightedMean f.weights_ (radarZsig L f.Xsig_pred_)
  let z : Fin 3 → R :=
    ![meas_package.raw_measurements_ 0, meas_package.raw_measurements_ 1,
      meas_package.raw_measurements_ 2]
  let y : Fin 3 → R := z - z_pred
  Function.update y 1 (normalizeAngle L (y 1))

/-- The method `UKF::UpdateRadar` (lines 315-403); the printing of line 394 is
left out. -/
def UKF.UpdateRadar (L : MathLib R) (f : UKF R) (meas_package : MeasurementPackage R) :
    UKF R :=
  let S := f.radarS L
  let Tc := f.radarTc L
  let K := Tc * inverse S
  let y := f.radarY L meas_package
  { f with
    NIS_score := y ⬝ᵥ (inverse S *ᵥ y)
    x_ := f.x_ + K *ᵥ y
    P_ := f.P_ - K * S * Kᵀ }

/-- The method `UKF::ProcessMeasurement` (lines 79-134). -/
def UKF.ProcessMeasurement (L : MathLib R) (f : UKF R) (meas_package : MeasurementPackage R) :
    UKF R :=
  if !f.is_initialized_ then
    let f1 : UKF R :=
      if meas_package.sensor_type_ = SensorType.LASER then
        let px := meas_package.raw_measurements_ 0
        let py := meas_package.raw_measurements_ 1
        { f with
          x_ := ![px, py, 0.0, 0.0, 0.0]
          P_ := !![f.std_laspx_ * f.std_laspx_, 0, 0, 0, 0;
                   0, f.std_laspy_ * f.std_laspy_, 0, 0, 0;
                   0, 0, 1, 0, 0;
                   0, 0, 0, 1, 0;
                   0, 0, 0, 0, 1] }
      else if meas_package.sensor_type_ = SensorType.RADAR then
        let rho := meas_package.raw_measurements_ 0
        let phi := meas_package.raw_measurements_ 1
        let px := rho * L.cos phi
        let py := rho * L.sin phi
        { f with
          x_ := ![px, py, 0.0, 0.0, 0.0]
          P_ := !![f.std_radr_ * f.std_radr_, 0, 0, 0, 0;
                   0, f.std_radr_ * f.std_radr_, 0, 0, 0;
                   0, 0, 1, 0, 0;
                   0, 0, 0, 1, 0;
                   0, 0, 0, 0, 1] }
      else f
    { f1 with time_us_ := meas_package.timestamp_, is_initialized_ := true }
  else
    let delta_t : R := ((meas_package.timestamp_ - f.time_us_ : Int) : R) / 1000000.0
    let f1 : UKF R := { f with time_us_ := meas_package.timestamp_ }
    let f2 := f1.Prediction L delta_t
    if meas_package.sensor_type_ = SensorType.LASER ∧ f2.use_laser_ = true then
      f2.UpdateLidar L meas_package
    else if meas_package.sensor_type_ = SensorType.RADAR ∧ f2.use_radar_ = true then
      f2.UpdateRadar L meas_package
    else f2

/-- Feeding a sequence of measurements to the filter, one call each. -/
def UKF.run (L : MathLib R) (f : UKF R) (ms : List (MeasurementPackage R)) : UKF R :=
  ms.foldl (UKF.ProcessMeasurement L) f

end Code

/-- The C functions over the real numbers: `atan2 y x` is the argument of the
complex number `x + y i`, which lies in `(-π, π]`.  The Cholesky routine stays
a parameter. -/
noncomputable def MathLib.real
    (llt : Matrix (Fin n_aug_) (Fin n_aug_) ℝ → Matrix (Fin n_aug_) (Fin n_aug_) ℝ) :
    MathLib ℝ where
  sin := Real.sin
  cos := Real.cos
  atan2 := fun y x => Complex.arg (x + y * Complex.I)
  sqrt := Real.sqrt
  llt := llt

section Inputs

variable {R : Type} [LinearOrderedField R]

/-- Zeroed memory: the content that `UKF.new` is applied to in the examples. -/
def UKF.blank : UKF R where
  is_initialized_ := false
  use_laser_ := false
  use_radar_ := false
  x_ := 0
  P_ := 0
  Xsig_pred_ := 0
  time_us_ := 0
  std_a_ := 0
  std_yawdd_ := 0
  std_laspx_ := 0
  std_laspy_ := 0
  std_radr_ := 0
  std_radphi_ := 0
  std_radrd_ := 0
  lambda_ := 0
  weights_ := 0
  NIS_score := 0

/-- A laser measurement `(px, py)` taken at time `t`. -/
def laserMeasurement (t : Int) (px py : R) : MeasurementPackage R where
  timestamp_ := t
  sensor_type_ := SensorType.LASER
  raw_measurements_ := fun i => if i = 0 then px else if i = 1 then py else 0

/-- A radar measurement `(rho, phi, rho_dot)` taken at time `t`. -/
def radarMeasurement (t : Int) (rho phi rho_dot : R) : MeasurementPackage R where
  timestamp_ := t
  sensor_type_ := SensorType.RADAR
  raw_measurements_ :=
    fun i => if i = 0 then rho else if i = 1 then phi else if i = 2 then rho_dot else 0

/-- A tracking filter built on the constructor's constants: speed 1, heading 0,
and a positive definite covariance in which a wide heading uncertainty is
correlated with position and speed.  The argument `pi` stands for π. -/
def wideHeadingFilter (pi : R) : UKF R :=
  { (UKF.new UKF.blank : UKF R) with
    is_initialized_ := true
    x_ := ![0, 0, 1, 0, 0]
    P_ := !![1 / 3, 0, 0, pi / 3, 0;
             0, 1 / 3, 0, pi / 3, 0;
             0, 0, 1 / 3, pi / 3, 0;
             pi / 3, pi / 3, pi / 3, 4 * pi ^ 2 / 3, 0;
             0, 0, 0, 0, pi ^ 2 / 3] }

/-- The lower Cholesky factor of the augmented covariance of
`wideHeadingFilter pi`, where `s` stands for the square root of 3: the diagonal
is `(1/s, 1/s, 1/s, pi/s, pi/s, 0.5, 0.5)`, row 3 holds `pi/s` in columns 0 to 2,
and every other entry is 0. -/
def wideHeadingFactor (pi s : R) : Matrix (Fin n_aug_) (Fin n_aug_) R :=
  fun i j =>
    if i = j then (if i.val < 3 then 1 / s else if i.val < 5 then pi / s else 0.5)
    else if i.val = 3 ∧ j.val < 3 then pi / s
    else 0

/-- A tracking filter built on the constructor's constants whose covariance is
the diagonal matrix with entries -1, so that its augmented covariance has no
Cholesky factor. -/
def negativeCovarianceFilter : UKF R :=
  { (UKF.new UKF.blank : UKF R) with
    is_initialized_ := true
    x_ := 0
    P_ := Matrix.diagonal fun _ => -1 }

/-- A tracking filter built on the constructor's constants at position (3, 0)
with a diagonal covariance whose `py` variance is 16/3 (standard deviation about
2.3). -/
def widePositionFilter : UKF R :=
  { (UKF.new UKF.blank : UKF R) with
    is_initialized_ := true
    x_ := ![3, 0, 0, 0, 0]
    P_ := Matrix.diagonal ![1 / 3, 16 / 3, 1 / 3, 1 / 3, 1 / 3] }

/-- The lower Cholesky factor of the augmented covariance of
`widePositionFilter`, where `s` stands for the square root of 3: the diagonal
matrix with entries `(1/s, 4/s, 1/s, 1/s, 1/s, 0.5, 0.5)`. -/
def widePositionFactor (s : R) : Matrix (Fin n_aug_) (Fin n_aug_) R :=
  fun i j =>
    if i = j then (if i.val = 1 then 4 / s else if i.val < 5 then 1 / s else 0.5)
    else 0

/-- The state difference of the radar cross correlation as the specification
words it: the heading entry (state index 3) is normalised and every other entry
is the plain difference. -/
def radarXdiffSpec (L : MathLib R) (Xsig_pred : Matrix (Fin n_x_) (Fin (2 * n_aug_ + 1)) R)
    (x : Fin n_x_ → R) (i : Fin (2 * n_aug_ + 1)) : Fin n_x_ → R :=
  let x_diff : Fin n_x_ → R := (fun r => Xsig_pred r i) - x
  Function.update x_diff 3 (normalizeAngle L (x_diff 3))

/-- The radar cross correlation as the specification words it: `UKF.radarTc`
with `radarXdiffSpec` in the place of `radarXdiff`. -/
def UKF.radarTcSpec (L : MathLib R) (f : UKF R) : Matrix (Fin n_x_) (Fin 3) R :=
  let Zsig := radarZsig L f.Xsig_pred_
  let z_pred := weightedMean f.weights_ Zsig
  (List.finRange (2 * n_aug_ + 1)).foldl
    (fun Tc i =>
      let z_diff := radarZdiff L Zsig z_pred i
      let x_diff := radarXdiffSpec L f.Xsig_pred_ f.x_ i
      Tc + vecMulVec (f.weights_ i • x_diff) z_diff)
    0

/-- A tracking filter built on the constructor's constants: speed 1, heading 0,
and a positive definite covariance in which a wide heading uncertainty is
correlated with `px`, `py` and speed; the `py` variance is 3/400 and the yaw-rate
variance 1/12000000.  The argument `pi` stands for π. -/
def correlatedHeadingFilter (pi : R) : UKF R :=
  { (UKF.new UKF.blank : UKF R) with
    is_initialized_ := true
    x_ := ![0, 0, 1, 0, 0]
    P_ := !![1 / 3, 0, 0, pi / 3, 0;
             0, 3 / 400, 0, pi / 20, 0;
             0, 0, 1 / 3, pi / 3, 0;
             pi / 3, pi / 20, pi / 3, 4 * pi ^ 2 / 3, 0;
             0, 0, 0, 0, 1 / 12000000] }

/-- The lower Cholesky factor of the augmented covariance of
`correlatedHeadingFilter pi`, where `s` stands for the square root of 3: the
diagonal is `(1/s, (3/20)/s, 1/s, pi/s, (1/2000)/s, 0.5, 0.5)`, row 3 holds `pi/s`
in columns 0 to 2, and every other entry is 0. -/
def correlatedHeadingFactor (pi s : R) : Matrix (Fin n_aug_) (Fin n_aug_) R :=
  fun i j =>
    if i = j then
      (if i.val = 1 then 3 / 20 / s else if i.val < 3 then 1 / s else if i.val = 3 then pi / s
        else if i.val = 4 then 1 / 2000 / s else 0.5)
    else if i.val = 3 ∧ j.val < 3 then pi / s
    else 0

end Inputs

/-! ## Loops as sums -/

section Folds

/-- An accumulating loop over `0 .. n-1` computes a finite sum. -/
theorem foldl_finRange_add {M : Type} [AddCommMonoid M] {n : Nat} (g : Fin n → M) (a : M) :
    (List.finRange n).foldl (fun acc i => acc + g i) a = a + ∑ i, g i := by
  have h : ∀ (l : List (Fin n)) (a : M),
      l.foldl (fun acc i => acc + g i) a = a + (l.map g).sum := by
    intro l
    induction l with
    | nil => intro a; simp
    | cons x xs ih => intro a; simp [ih, add_assoc]
  rw [h, Fin.sum_univ_def]

/-- A loop that overwrites column `i` with `g i` for each `i` of a duplicate-free
index list: the columns listed hold `g`, the others are untouched. -/
theorem foldl_updateColumn_apply {m n : Nat} {R : Type} (g : Fin n → Fin m → R) :
    ∀ (l : List (Fin n)) (X : Matrix (Fin m) (Fin n) R) (r : Fin m) (c : Fin n),
      (l.foldl (fun X i => X.updateColumn i (g i)) X) r c = if c ∈ l then g c r else X r c := by
  intro l
  induction l using List.reverseRecOn with
  | nil => intro X r c; simp
  | append_singleton xs x ih =>
    intro X r c
    rw [List.foldl_append]
    simp only [List.foldl_cons, List.foldl_nil, List.mem_append, List.mem_singleton]
    by_cases hc : c = x
    · subst hc; simp
    · rw [Matrix.updateColumn_ne hc, ih]
      simp [hc]

/-- A loop that overwrites every column computes the matrix of the new columns. -/
theorem foldl_finRange_updateColumn {m n : Nat} {R : Type} (g : Fin n → Fin m → R)
    (X : Matrix (Fin m) (Fin n) R) :
    (List.finRange n).foldl (fun X i => X.updateColumn i (g i)) X = fun r c => g c r := by
  funext r c
  rw [foldl_updateColumn_apply]
  simp

end Folds

/-! ## The controller -/

/-- C1: for every uninitialized filter and every laser measurement (px, py),
ProcessMeasurement leaves the mean [px, py, 0, 0, 0] and the covariance
diag(std_laspx^2, std_laspy^2, 1, 1, 1); the timestamp is stored, the filter is
marked initialized and no other member changes (no prediction, no update).
In particular (5.0, 3.0) gives the mean [5.0, 3.0, 0, 0, 0] and the top-left
2x2 block diag(std_laspx^2, std_laspy^2). -/
theorem C1_laser_first_measurement {R : Type} [LinearOrderedField R] (L : MathLib R)
    (f : UKF R) (m : MeasurementPackage R)
    (hinit : f.is_initialized_ = false) (hlaser : m.sensor_type_ = SensorType.LASER) :
    UKF.ProcessMeasurement L f m =
        { f with
          x_ := ![m.raw_measurements_ 0, m.raw_measurements_ 1, 0, 0, 0]
          P_ := Matrix.diagonal
            ![f.std_laspx_ ^ 2, f.std_laspy_ ^ 2, 1, 1, 1]
          time_us_ := m.timestamp_
          is_initialized_ := true } ∧
      (m.raw_measurements_ 0 = 5.0 → m.raw_measurements_ 1 = 3.0 →
        (UKF.ProcessMeasurement L f m).x_ = ![5.0, 3.0, 0, 0, 0] ∧
        (UKF.ProcessMeasurement L f m).P_.submatrix (Fin.castLE (by decide)) (Fin.castLE (by decide))
          = (Matrix.diagonal ![f.std_laspx_ ^ 2, f.std_laspy_ ^ 2] : Matrix (Fin 2) (Fin 2) R)) := by
  have hP : (!![f.std_laspx_ * f.std_laspx_, 0, 0, 0, 0;
                0, f.std_laspy_ * f.std_laspy_, 0, 0, 0;
                0, 0, 1, 0, 0;
                0, 0, 0, 1, 0;
                0, 0, 0, 0, 1] : Matrix (Fin n_x_) (Fin n_x_) R)
      = Matrix.diagonal ![f.std_laspx_ ^ 2, f.std_laspy_ ^ 2, 1, 1, 1] := by
    ext i j
    fin_cases i <;> fin_cases j <;> simp [Matrix.diagonal, pow_two, Matrix.vecHead, Matrix.vecTail]
  have hmain : UKF.ProcessMeasurement L f m =
        { f with
          x_ := ![m.raw_measurements_ 0, m.raw_measurements_ 1, 0, 0, 0]
          P_ := Matrix.diagonal
            ![f.std_laspx_ ^ 2, f.std_laspy_ ^ 2, 1, 1, 1]
          time_us_ := m.timestamp_
          is_initialized_ := true } := by
    simp only [UKF.ProcessMeasurement, hinit, hlaser, Bool.not_false, if_true, hP]
    norm_num
  refine ⟨hmain, ?_⟩
  intro h0 h1
  rw [hmain]
  refine ⟨by simp [h0, h1], ?_⟩
  ext i j
  fin_cases i <;> fin_cases j <;> simp [Matrix.diagonal, Fin.castLE, Matrix.vecHead, Matrix.vecTail]

/-- Witness of C1: a freshly constructed filter given the laser measurement
(5.0, 3.0) at time 0. -/
theorem C1_laser_first_measurement_witness :
    (UKF.ProcessMeasurement (MathLib.real id) (UKF.new UKF.blank)
        (laserMeasurement 0 (5.0 : ℝ) 3.0)).x_ = ![5.0, 3.0, 0, 0, 0] :=
  ((C1_laser_first_measurement (MathLib.real id) (UKF.new UKF.blank)
      (laserMeasurement 0 (5.0 : ℝ) 3.0) rfl rfl).2
    (by simp [laserMeasurement]) (by simp [laserMeasurement])).1

/-- C2: for every uninitialized filter and every radar measurement
(rho, phi, rho_dot), ProcessMeasurement leaves the mean
[rho*cos(phi), rho*sin(phi), 0, 0, 0], in which rho_dot does not occur; in
particular (5.0, 0, 0) gives [5.0, 0.0, 0, 0, 0]. -/
theorem C2_radar_first_measurement
    (llt : Matrix (Fin n_aug_) (Fin n_aug_) ℝ → Matrix (Fin n_aug_) (Fin n_aug_) ℝ)
    (f : UKF ℝ) (m : MeasurementPackage ℝ)
    (hinit : f.is_initialized_ = false) (hradar : m.sensor_type_ = SensorType.RADAR) :
    (UKF.ProcessMeasurement (MathLib.real llt) f m).x_ =
        ![m.raw_measurements_ 0 * Real.cos (m.raw_measurements_ 1),
          m.raw_measurements_ 0 * Real.sin (m.raw_measurements_ 1), 0, 0, 0] ∧
      (m.raw_measurements_ 0 = 5.0 → m.raw_measurements_ 1 = 0 → m.raw_measurements_ 2 = 0 →
        (UKF.ProcessMeasurement (MathLib.real llt) f m).x_ = ![5.0, 0.0, 0, 0, 0]) := by
  have hmain : (UKF.ProcessMeasurement (MathLib.real llt) f m).x_ =
        ![m.raw_measurements_ 0 * Real.cos (m.raw_measurements_ 1),
          m.raw_measurements_ 0 * Real.sin (m.raw_measurements_ 1), 0, 0, 0] := by
    simp only [UKF.ProcessMeasurement, hinit, hradar, MathLib.real, Bool.not_false, if_true,
      reduceCtorEq, if_false]
    norm_num
  refine ⟨hmain, ?_⟩
  intro h0 h1 _
  rw [hmain, h0, h1]
  norm_num

/-- Witness of C2: a freshly constructed filter given the radar measurement
(5.0, 0, 0) at time 0. -/
theorem C2_radar_first_measurement_witness :
    (UKF.ProcessMeasurement (MathLib.real id) (UKF.new UKF.blank)
        (radarMeasurement 0 (5.0 : ℝ) 0 0)).x_ = ![5.0, 0.0, 0, 0, 0] :=
  (C2_radar_first_measurement id (UKF.new UKF.blank)
      (radarMeasurement 0 (5.0 : ℝ) 0 0) rfl rfl).2
    (by simp [radarMeasurement]) (by simp [radarMeasurement]) (by simp [radarMeasurement])

/-- C3: for every initialized filter and every measurement with timestamp t,
ProcessMeasurement stores t, runs Prediction with elapsed time
(t - previous timestamp) / 10^6, then applies UpdateLidar when the measurement
is a laser one and use_laser_ holds, UpdateRadar when it is a radar one and
use_radar_ holds; when the sensor type of the measurement is disabled the
result is that of Prediction alone (mean, covariance, propagated sigma points)
and the diagnostic score is the one before the call. -/
theorem C3_tracking_cycle {R : Type} [LinearOrderedField R] (L : MathLib R)
    (f : UKF R) (m : MeasurementPackage R) (hinit : f.is_initialized_ = true) :
    (UKF.ProcessMeasurement L f m).time_us_ = m.timestamp_ ∧
    (m.sensor_type_ = SensorType.LASER → f.use_laser_ = true →
      UKF.ProcessMeasurement L f m =
        UKF.UpdateLidar L
          (UKF.Prediction L { f with time_us_ := m.timestamp_ }
            (((m.timestamp_ - f.time_us_ : Int) : R) / 10 ^ 6)) m) ∧
    (m.sensor_type_ = SensorType.RADAR → f.use_radar_ = true →
      UKF.ProcessMeasurement L f m =
        UKF.UpdateRadar L
          (UKF.Prediction L { f with time_us_ := m.timestamp_ }
            (((m.timestamp_ - f.time_us_ : Int) : R) / 10 ^ 6)) m) ∧
    ((m.sensor_type_ = SensorType.LASER → f.use_laser_ = false) →
      (m.sensor_type_ = SensorType.RADAR → f.use_radar_ = false) →
      UKF.ProcessMeasurement L f m =
          UKF.Prediction L { f with time_us_ := m.timestamp_ }
            (((m.timestamp_ - f.time_us_ : Int) : R) / 10 ^ 6) ∧
        (UKF.ProcessMeasurement L f m).NIS_score = f.NIS_score) := by
  have hdt : (1000000.0 : R) = 10 ^ 6 := by norm_num
  cases hs : m.sensor_type_ <;> cases hl : f.use_laser_ <;> cases hr : f.use_radar_ <;>
    simp [UKF.ProcessMeasurement, UKF.Prediction, UKF.UpdateLidar, UKF.UpdateRadar,
      hinit, hs, hl, hr, hdt]

/-- Witness of C3: an initialized filter with the laser disabled receives a
laser measurement one second after the previous one. -/
theorem C3_tracking_cycle_witness :
    (UKF.ProcessMeasurement (MathLib.real id)
        { (UKF.blank : UKF ℝ) with is_initialized_ := true }
        (laserMeasurement 1000000 1 2)).time_us_ = 1000000 :=
  (C3_tracking_cycle (MathLib.real id) { (UKF.blank : UKF ℝ) with is_initialized_ := true }
    (laserMeasurement 1000000 1 2) rfl).1

/-- Every call of ProcessMeasurement leaves the filter initialized. -/
theorem ProcessMeasurement_is_initialized {R : Type} [LinearOrderedField R] (L : MathLib R)
    (f : UKF R) (m : MeasurementPackage R) :
    (UKF.ProcessMeasurement L f m).is_initialized_ = true := by
  cases hi : f.is_initialized_
  · simp [UKF.ProcessMeasurement, hi]
  · simp only [UKF.ProcessMeasurement, hi, Bool.not_true]
    split_ifs <;> simp_all [UKF.Prediction, UKF.UpdateLidar, UKF.UpdateRadar]

/-- C4: a freshly constructed filter is uninitialized; the first
ProcessMeasurement call, of either sensor type and whatever use_laser_ and
use_radar_ are, makes is_initialized_ true; and once is_initialized_ is true it
is true after every later sequence of ProcessMeasurement calls. -/
theorem C4_one_way_initialization {R : Type} [LinearOrderedField R] (L : MathLib R) :
    (∀ mem : UKF R, (UKF.new mem).is_initialized_ = false) ∧
    (∀ (f : UKF R) (m : MeasurementPackage R), f.is_initialized_ = false →
      (UKF.ProcessMeasurement L f m).is_initialized_ = true) ∧
    (∀ (f : UKF R) (ms : List (MeasurementPackage R)), f.is_initialized_ = true →
      (UKF.run L f ms).is_initialized_ = true) := by
  refine ⟨fun _ => rfl, fun f m _ => ProcessMeasurement_is_initialized L f m, ?_⟩
  intro f ms
  induction ms generalizing f with
  | nil => intro h; simpa [UKF.run] using h
  | cons m ms ih =>
    intro _
    have := ih (UKF.ProcessMeasurement L f m) (ProcessMeasurement_is_initialized L f m)
    simpa [UKF.run] using this

/-- Witness of C4: a fresh filter fed a laser and then a radar measurement. -/
theorem C4_one_way_initialization_witness :
    (UKF.run (MathLib.real id)
        (UKF.ProcessMeasurement (MathLib.real id) (UKF.new UKF.blank) (laserMeasurement 0 1 2))
        [radarMeasurement 50000 1 0 0]).is_initialized_ = true :=
  (C4_one_way_initialization (MathLib.real id)).2.2 _ _
    ((C4_one_way_initialization (MathLib.real id)).2.1 (UKF.new UKF.blank)
      (laserMeasurement 0 1 2) rfl)

/-! ## The weights -/

/-- C5: the weights lambda/(lambda+n_aug) followed by 2*n_aug copies of
0.5/(lambda+n_aug) sum to 1 for every n_aug >= 1 and every lambda with
lambda + n_aug != 0; in particular the 15 weights that Prediction stores for
lambda = 3 - 7 sum to 1. -/
theorem C5_weights_sum_one {R : Type} [LinearOrderedField R] (n_aug : Nat) (lambda : R)
    (_hn : 1 ≤ n_aug) (hl : lambda + n_aug ≠ 0) :
    ∑ i, weightsOf n_aug lambda i = 1 ∧
    (n_aug = n_aug_ → lambda = 3 - 7 →
      ∀ (L : MathLib R) (f : UKF R) (delta_t : R), f.lambda_ = lambda →
        ∑ i, (UKF.Prediction L f delta_t).weights_ i = 1) := by
  have hsum : ∀ (n : Nat) (l : R), l + n ≠ 0 → ∑ i, weightsOf n l i = 1 := by
    intro n l hne
    rw [Fin.sum_univ_succ]
    have h0 : weightsOf n l 0 = l / (l + n) := by simp [weightsOf]
    have hs : ∀ i : Fin (2 * n), weightsOf n l i.succ = 0.5 / (l + n) := by
      intro i
      simp [weightsOf, Function.update_noteq (Fin.succ_ne_zero i)]
    simp only [h0, hs, Finset.sum_const, Finset.card_univ, Fintype.card_fin, nsmul_eq_mul]
    push_cast
    field_simp
    ring
  refine ⟨hsum n_aug lambda hl, ?_⟩
  intro hn hlam L f delta_t hf
  subst hn
  simp only [UKF.Prediction, hf]
  exact hsum n_aug_ lambda hl

/-- Witness of C5: the constants of the filter, n_aug = 7 and lambda = -4. -/
theorem C5_weights_sum_one_witness :
    ∑ i, weightsOf 7 (-4 : ℝ) i = 1 :=
  (C5_weights_sum_one 7 (-4 : ℝ) (by decide) (by norm_num)).1

/-! ## Symmetry of the covariance -/

section Symmetry

variable {R : Type} [LinearOrderedField R]

/-- A weighted sum of outer products `(w i * d i) (d i)ᵀ` is a symmetric matrix. -/
theorem isSymm_sum_outer {n N : Nat} (w : Fin N → R) (d : Fin N → Fin n → R) :
    (∑ i, vecMulVec (w i • d i) (d i)).IsSymm := by
  apply Matrix.IsSymm.ext
  intro r c
  simp only [Matrix.sum_apply, vecMulVec_apply, Pi.smul_apply, smul_eq_mul]
  exact Finset.sum_congr rfl (fun i _ => by ring)

/-- The covariance loop of Prediction is the weighted sum of the outer products
of the normalised differences. -/
theorem predictedCovariance_eq_sum (L : MathLib R) (w : Fin (2 * n_aug_ + 1) → R)
    (X : Matrix (Fin n_x_) (Fin (2 * n_aug_ + 1)) R) (x : Fin n_x_ → R) :
    predictedCovariance L w X x =
      ∑ i, vecMulVec (w i • predictionDiff L X x i) (predictionDiff L X x i) :=
  (foldl_finRange_add
    (fun i => vecMulVec (w i • predictionDiff L X x i) (predictionDiff L X x i)) 0).trans
    (zero_add _)

/-- The innovation covariance of the laser update: the weighted sum of the
outer products of the residuals, plus the measurement noise. -/
theorem lidarS_eq_sum (f : UKF R) :
    f.lidarS =
      (∑ i, vecMulVec
          (f.weights_ i • ((fun r => lidarZsig f.Xsig_pred_ r i) -
            weightedMean f.weights_ (lidarZsig f.Xsig_pred_)))
          ((fun r => lidarZsig f.Xsig_pred_ r i) -
            weightedMean f.weights_ (lidarZsig f.Xsig_pred_))) +
        !![f.std_laspx_ * f.std_laspx_, 0; 0, f.std_laspy_ * f.std_laspy_] := by
  unfold UKF.lidarS
  exact congrArg (· + _) ((foldl_finRange_add _ 0).trans (zero_add _))

/-- The innovation covariance of the radar update: the weighted sum of the
outer products of the normalised residuals, plus the measurement noise. -/
theorem radarS_eq_sum (L : MathLib R) (f : UKF R) :
    f.radarS L =
      (∑ i, vecMulVec
          (f.weights_ i • radarZdiff L (radarZsig L f.Xsig_pred_)
            (weightedMean f.weights_ (radarZsig L f.Xsig_pred_)) i)
          (radarZdiff L (radarZsig L f.Xsig_pred_)
            (weightedMean f.weights_ (radarZsig L f.Xsig_pred_)) i)) +
        !![f.std_radr_ * f.std_radr_, 0, 0; 0, f.std_radphi_ * f.std_radphi_, 0;
           0, 0, f.std_radrd_ * f.std_radrd_] := by
  unfold UKF.radarS
  exact congrArg (· + _) ((foldl_finRange_add _ 0).trans (zero_add _))

/-- The innovation covariance of the laser update is symmetric. -/
theorem lidarS_isSymm (f : UKF R) : f.lidarS.IsSymm := by
  rw [lidarS_eq_sum]
  refine Matrix.IsSymm.add (isSymm_sum_outer _ _) ?_
  apply Matrix.IsSymm.ext
  intro i j
  fin_cases i <;> fin_cases j <;> rfl

/-- The innovation covariance of the radar update is symmetric. -/
theorem radarS_isSymm (L : MathLib R) (f : UKF R) : (f.radarS L).IsSymm := by
  rw [radarS_eq_sum]
  refine Matrix.IsSymm.add (isSymm_sum_outer _ _) ?_
  apply Matrix.IsSymm.ext
  intro i j
  fin_cases i <;> fin_cases j <;> rfl

/-- The correction `P - K S Kᵀ` keeps a symmetric `P` symmetric when `S` is. -/
theorem isSymm_sub_gain {n k : Nat} (P : Matrix (Fin n) (Fin n) R)
    (K : Matrix (Fin n) (Fin k) R) (S : Matrix (Fin k) (Fin k) R)
    (hP : P.IsSymm) (hS : S.IsSymm) : (P - K * S * Kᵀ).IsSymm := by
  unfold Matrix.IsSymm
  rw [Matrix.transpose_sub, Matrix.transpose_mul, Matrix.transpose_mul,
    Matrix.transpose_transpose, hP.eq, hS.eq, Matrix.mul_assoc]

/-- The covariance that Prediction stores is symmetric. -/
theorem Prediction_P_isSymm (L : MathLib R) (f : UKF R) (delta_t : R) :
    (UKF.Prediction L f delta_t).P_.IsSymm := by
  simp only [UKF.Prediction, predictedCovariance_eq_sum]
  exact isSymm_sum_outer _ _

/-- The expression `P - K S Kᵀ` that the laser update stores is symmetric for a
symmetric `P`.  This holds for any gain `K`, so it does not rest on the value of
`inverse S`. -/
theorem UpdateLidar_P_isSymm (L : MathLib R) (f : UKF R) (m : MeasurementPackage R)
    (hP : f.P_.IsSymm) : (UKF.UpdateLidar L f m).P_.IsSymm :=
  isSymm_sub_gain _ _ _ hP (lidarS_isSymm f)

/-- The expression `P - K S Kᵀ` that the radar update stores is symmetric for a
symmetric `P`.  This holds for any gain `K`, so it does not rest on the value of
`inverse S`. -/
theorem UpdateRadar_P_isSymm (L : MathLib R) (f : UKF R) (m : MeasurementPackage R)
    (hP : f.P_.IsSymm) : (UKF.UpdateRadar L f m).P_.IsSymm :=
  isSymm_sub_gain _ _ _ hP (radarS_isSymm L f)

/-- The covariance that ProcessMeasurement sets on the first measurement is a
diagonal matrix, hence symmetric. -/
theorem ProcessMeasurement_first_P_isSymm (L : MathLib R) (f : UKF R)
    (m : MeasurementPackage R) (hi : f.is_initialized_ = false) :
    (UKF.ProcessMeasurement L f m).P_.IsSymm := by
  cases hs : m.sensor_type_ <;>
    simp only [UKF.ProcessMeasurement, hi, hs, Bool.not_false, ↓reduceIte, reduceCtorEq] <;>
    · apply Matrix.IsSymm.ext
      intro i j
      fin_cases i <;> fin_cases j <;> rfl

end Symmetry

/-! ## Angle normalisation -/

/-- C8: for every real d, atan2(sin(d), cos(d)) lies in the half-open interval
(-pi, pi] and differs from d by an integer multiple of 2*pi. -/
theorem C8_normalizeAngle_correct
    (llt : Matrix (Fin n_aug_) (Fin n_aug_) ℝ → Matrix (Fin n_aug_) (Fin n_aug_) ℝ) (d : ℝ) :
    normalizeAngle (MathLib.real llt) d ∈ Set.Ioc (-Real.pi) Real.pi ∧
    ∃ k : ℤ, normalizeAngle (MathLib.real llt) d - d = k * (2 * Real.pi) := by
  have h : normalizeAngle (MathLib.real llt) d
      = Complex.arg (Complex.cos d + Complex.sin d * Complex.I) := by
    simp [normalizeAngle, MathLib.real]
  rw [h]
  refine ⟨Complex.arg_mem_Ioc _, ⌊(Real.pi - d) / (2 * Real.pi)⌋, ?_⟩
  rw [Complex.arg_cos_add_sin_mul_I_sub]
  ring

/-! ## Continuity of the CTRV position update at yaw rate zero -/

/-- The slope `(sin (yaw + w dt) - sin yaw) / w` tends to `dt cos yaw` as `w → 0`. -/
theorem tendsto_sin_slope (yaw dt : ℝ) :
    Filter.Tendsto (fun w : ℝ => (Real.sin (yaw + w * dt) - Real.sin yaw) / w)
      (nhdsWithin 0 {0}ᶜ) (nhds (dt * Real.cos yaw)) := by
  have hd : HasDerivAt (fun w : ℝ => Real.sin (yaw + w * dt)) (Real.cos (yaw + 0 * dt) * dt) 0 := by
    have h1 : HasDerivAt (fun w : ℝ => yaw + w * dt) dt 0 := by
      simpa using ((hasDerivAt_id (0 : ℝ)).mul_const dt).const_add yaw
    exact (Real.hasDerivAt_sin _).comp 0 h1
  have ht := hasDerivAt_iff_tendsto_slope.mp hd
  have he : (fun w : ℝ => (Real.sin (yaw + w * dt) - Real.sin yaw) / w)
      = slope (fun w : ℝ => Real.sin (yaw + w * dt)) 0 := by
    funext w
    simp [slope, div_eq_inv_mul]
  rw [he]
  simpa [mul_comm] using ht

/-- The slope `(cos yaw - cos (yaw + w dt)) / w` tends to `dt sin yaw` as `w → 0`. -/
theorem tendsto_cos_slope (yaw dt : ℝ) :
    Filter.Tendsto (fun w : ℝ => (Real.cos yaw - Real.cos (yaw + w * dt)) / w)
      (nhdsWithin 0 {0}ᶜ) (nhds (dt * Real.sin yaw)) := by
  have hd : HasDerivAt (fun w : ℝ => Real.cos (yaw + w * dt))
      (-Real.sin (yaw + 0 * dt) * dt) 0 := by
    have h1 : HasDerivAt (fun w : ℝ => yaw + w * dt) dt 0 := by
      simpa using ((hasDerivAt_id (0 : ℝ)).mul_const dt).const_add yaw
    exact (Real.hasDerivAt_cos _).comp 0 h1
  have ht := (hasDerivAt_iff_tendsto_slope.mp hd).neg
  have he : (fun w : ℝ => (Real.cos yaw - Real.cos (yaw + w * dt)) / w)
      = fun w => -slope (fun w : ℝ => Real.cos (yaw + w * dt)) 0 w := by
    funext w
    simp [slope, div_eq_inv_mul]
    ring
  rw [he]
  simpa [mul_comm] using ht

/-- C9: for fixed px, py, v, yaw and elapsed time dt, as the yaw rate tends to 0
through nonzero values, the turning-branch position
(px + v/yawd*(sin(yaw+yawd*dt) - sin(yaw)), py + v/yawd*(cos(yaw) - cos(yaw+yawd*dt)))
tends to the straight-line position (px + v*dt*cos(yaw), py + v*dt*sin(yaw)). -/
theorem C9_ctrv_continuous_at_zero_yaw_rate
    (llt : Matrix (Fin n_aug_) (Fin n_aug_) ℝ → Matrix (Fin n_aug_) (Fin n_aug_) ℝ)
    (px py v yaw dt : ℝ) :
    Filter.Tendsto (fun yawd : ℝ => ctrvTurn (MathLib.real llt) px py v yaw yawd dt)
      (nhdsWithin 0 {0}ᶜ) (nhds (ctrvStraight (MathLib.real llt) px py v yaw dt)) := by
  have hx : Filter.Tendsto
      (fun yawd : ℝ => px + v / yawd * (Real.sin (yaw + yawd * dt) - Real.sin yaw))
      (nhdsWithin 0 {0}ᶜ) (nhds (px + v * dt * Real.cos yaw)) := by
    have h := ((tendsto_sin_slope yaw dt).const_mul v).const_add px
    have he : (fun yawd : ℝ => px + v / yawd * (Real.sin (yaw + yawd * dt) - Real.sin yaw))
        = fun w => px + v * ((Real.sin (yaw + w * dt) - Real.sin yaw) / w) := by
      funext w
      ring
    rw [he]
    simpa [mul_assoc] using h
  have hy : Filter.Tendsto
      (fun yawd : ℝ => py + v / yawd * (Real.cos yaw - Real.cos (yaw + yawd * dt)))
      (nhdsWithin 0 {0}ᶜ) (nhds (py + v * dt * Real.sin yaw)) := by
    have h := ((tendsto_cos_slope yaw dt).const_mul v).const_add py
    have he : (fun yawd : ℝ => py + v / yawd * (Real.cos yaw - Real.cos (yaw + yawd * dt)))
        = fun w => py + v * ((Real.cos yaw - Real.cos (yaw + w * dt)) / w) := by
      funext w
      ring
    rw [he]
    simpa [mul_assoc] using h
  exact hx.prod_mk_nhds hy

/-! ## The diagnostic score -/

/-- Over a field, `inverse` is the matrix inverse. -/
theorem inverse_eq_inv {R : Type} [LinearOrderedField R] {n : Nat}
    (A : Matrix (Fin n) (Fin n) R) : inverse A = A⁻¹ := by
  rw [inverse, Matrix.inv_def, Ring.inverse_eq_inv']

/-- The quadratic form of the inverse of a positive definite matrix is
nonnegative. -/
theorem nis_nonneg {n : Nat} (S : Matrix (Fin n) (Fin n) ℝ) (hS : S.PosDef) (y : Fin n → ℝ) :
    0 ≤ y ⬝ᵥ (inverse S *ᵥ y) := by
  rw [inverse_eq_inv]
  have h := hS.inv.posSemidef.2 y
  simpa using h

/-! ## The sigma points and the predicted moments in closed form -/

section ClosedForms

variable {R : Type} [LinearOrderedField R]

/-- The sigma-point loop of Prediction in closed form: column 0 is the
augmented mean, column `i+1` adds and column `i+8` subtracts
`sqrt(lambda+n_aug_)` times column `i` of the square root. -/
theorem augmentedSigmaPoints_apply (L : MathLib R) (lambda : R) (x_aug : Fin n_aug_ → R)
    (P_sqrt : Matrix (Fin n_aug_) (Fin n_aug_) R)
    (X0 : Matrix (Fin n_aug_) (Fin (2 * n_aug_ + 1)) R) (r : Fin n_aug_)
    (c : Fin (2 * n_aug_ + 1)) :
    augmentedSigmaPoints L lambda x_aug P_sqrt X0 r c =
      if h0 : c.val = 0 then x_aug r
      else if h1 : c.val ≤ n_aug_ then
        x_aug r + L.sqrt (lambda + n_aug_) * P_sqrt r ⟨c.val - 1, by omega⟩
      else x_aug r - L.sqrt (lambda + n_aug_) * P_sqrt r ⟨c.val - 1 - n_aug_, by omega⟩ := by
  have hl : List.finRange n_aug_ = [0, 1, 2, 3, 4, 5, 6] := by decide
  simp only [augmentedSigmaPoints, hl, List.foldl_cons, List.foldl_nil, sigmaStep]
  fin_cases c <;>
    simp [Matrix.updateColumn_apply, Fin.ext_iff, Fin.coe_ofNat_eq_mod, n_aug_]

/-- The propagation loop of Prediction in closed form: column `c` of the result
is the CTRV image of column `c` of the augmented sigma points. -/
theorem predictSigmaPoints_apply (L : MathLib R) (delta_t : R)
    (Xsig_aug : Matrix (Fin n_aug_) (Fin (2 * n_aug_ + 1)) R)
    (Xsig_pred : Matrix (Fin n_x_) (Fin (2 * n_aug_ + 1)) R) (r : Fin n_x_)
    (c : Fin (2 * n_aug_ + 1)) :
    predictSigmaPoints L delta_t Xsig_aug Xsig_pred r c =
      predictSigmaPoint L delta_t (fun k => Xsig_aug k c) r := by
  unfold predictSigmaPoints
  rw [foldl_finRange_updateColumn
    (fun i => predictSigmaPoint L delta_t (fun k => Xsig_aug k i)) Xsig_pred]

/-- The mean loop in closed form. -/
theorem weightedMean_apply {n : Nat} (w : Fin (2 * n_aug_ + 1) → R)
    (M : Matrix (Fin n) (Fin (2 * n_aug_ + 1)) R) (r : Fin n) :
    weightedMean w M r = ∑ i, w i * M r i := by
  unfold weightedMean
  rw [foldl_finRange_add (fun i => w i • (fun r => M r i)) 0, zero_add, Finset.sum_apply]
  simp

/-- The weights of the filter: `-4/3` for column 0 and `1/6` for the others. -/
theorem weightsOf_filter (i : Fin (2 * n_aug_ + 1)) :
    weightsOf n_aug_ (-4 : R) i = if i = 0 then -4 / 3 else 1 / 6 := by
  unfold weightsOf
  by_cases h : i = 0
  · subst h
    simp only [Function.update_same, if_true]
    norm_num
  · simp only [Function.update_noteq h, if_neg h]
    norm_num

/-- The quadratic form of the predicted covariance. -/
theorem predictedCovariance_quadratic (L : MathLib R) (w : Fin (2 * n_aug_ + 1) → R)
    (X : Matrix (Fin n_x_) (Fin (2 * n_aug_ + 1)) R) (x v : Fin n_x_ → R) :
    v ⬝ᵥ (predictedCovariance L w X x *ᵥ v) = ∑ i, w i * (predictionDiff L X x i ⬝ᵥ v) ^ 2 := by
  rw [predictedCovariance_eq_sum]
  simp only [Matrix.dotProduct, Matrix.mulVec, Matrix.sum_apply, vecMulVec_apply, Pi.smul_apply,
    smul_eq_mul, Fin.sum_univ_five, Finset.mul_sum, Finset.sum_mul, ← Finset.sum_add_distrib]
  exact Finset.sum_congr rfl (fun i _ => by ring)

end ClosedForms

/-! ## Positive semi-definiteness of the predicted covariance -/

/-- The quadratic form of an outer product `d dᵀ` is a square. -/
theorem vecMulVec_quadratic {R : Type} [LinearOrderedField R] (d v : Fin n_x_ → R) :
    v ⬝ᵥ (vecMulVec d d *ᵥ v) = (d ⬝ᵥ v) ^ 2 := by
  simp only [Matrix.dotProduct, Matrix.mulVec, vecMulVec_apply, Fin.sum_univ_five]
  ring

/-- With the weights of the filter, the quadratic form of the predicted
covariance is one sixth of the squares of the 14 outer columns minus four
thirds of the square of the central column. -/
theorem predictedCovariance_quadratic_filter (L : MathLib ℝ)
    (X : Matrix (Fin n_x_) (Fin (2 * n_aug_ + 1)) ℝ) (x v : Fin n_x_ → ℝ) :
    v ⬝ᵥ (predictedCovariance L (weightsOf n_aug_ (-4 : ℝ)) X x *ᵥ v) =
      (∑ i : Fin (2 * n_aug_), 1 / 6 * (predictionDiff L X x i.succ ⬝ᵥ v) ^ 2)
        - 4 / 3 * (predictionDiff L X x 0 ⬝ᵥ v) ^ 2 := by
  rw [predictedCovariance_quadratic, Fin.sum_univ_succ]
  have h0 : weightsOf n_aug_ (-4 : ℝ) 0 = -4 / 3 := by
    rw [weightsOf_filter]; simp
  have hs : ∀ i : Fin (2 * n_aug_), weightsOf n_aug_ (-4 : ℝ) i.succ = 1 / 6 := by
    intro i
    rw [weightsOf_filter, if_neg (Fin.succ_ne_zero i)]
  simp only [h0, hs]
  ring

/-- The augmented mean of the example filter: speed 1, everything else 0. -/
theorem wideHeadingFilter_x_aug {R : Type} [LinearOrderedField R] (pi : R) :
    (wideHeadingFilter pi).x_aug = fun i => if i.val = 2 then 1 else 0 := by
  ext i
  fin_cases i <;> rfl

/-- The augmented covariance of the example filter, entry by entry. -/
theorem wideHeadingFilter_P_aug {R : Type} [LinearOrderedField R] (pi : R) :
    (wideHeadingFilter pi).P_aug = fun i j =>
      if i = j then
        (if i.val < 3 then 1 / 3 else if i.val = 3 then 4 * pi ^ 2 / 3
          else if i.val = 4 then pi ^ 2 / 3 else 0.5 * 0.5)
      else if (i.val = 3 ∧ j.val < 3) ∨ (j.val = 3 ∧ i.val < 3) then pi / 3
      else 0 := by
  ext i j
  fin_cases i <;> fin_cases j <;> rfl

/-- `wideHeadingFactor π √3` is the Cholesky factor of the augmented covariance
of `wideHeadingFilter π`: lower triangular, positive diagonal, `L Lᵀ = P_aug`. -/
theorem wideHeadingFactor_cholesky :
    wideHeadingFactor Real.pi (Real.sqrt 3) * (wideHeadingFactor Real.pi (Real.sqrt 3))ᵀ
        = (wideHeadingFilter Real.pi).P_aug ∧
      (∀ i j, i < j → wideHeadingFactor Real.pi (Real.sqrt 3) i j = 0) ∧
      (∀ i, 0 < wideHeadingFactor Real.pi (Real.sqrt 3) i i) := by
  have hs : Real.sqrt 3 * Real.sqrt 3 = 3 := Real.mul_self_sqrt (by norm_num)
  have hs0 : Real.sqrt 3 ≠ 0 := by
    intro h; rw [h] at hs; norm_num at hs
  have hsp : 0 < Real.sqrt 3 := Real.sqrt_pos.mpr (by norm_num)
  refine ⟨?_, ?_, ?_⟩
  · rw [wideHeadingFilter_P_aug]
    ext i j
    fin_cases i <;> fin_cases j <;>
      simp [wideHeadingFactor, Matrix.mul_apply, Fin.sum_univ_succ, Fin.ext_iff] <;>
      (try field_simp) <;> (try nlinarith [hs])
  · intro i j hij
    have h1 : i ≠ j := ne_of_lt hij
    have h2 : ¬ (i.val = 3 ∧ j.val < 3) := by
      intro h
      have : i.val < j.val := hij
      omega
    simp [wideHeadingFactor, h1, h2]
  · intro i
    simp only [wideHeadingFactor, if_true]
    split_ifs
    · positivity
    · exact div_pos Real.pi_pos hsp
    · norm_num

/-- The `px` row of the sigma points that Prediction propagates from the example
filter over one second. -/
theorem wideHeading_Xsig_pred_px (c : Fin (2 * n_aug_ + 1)) :
    (UKF.Prediction (MathLib.real fun _ => wideHeadingFactor Real.pi (Real.sqrt 3))
      (wideHeadingFilter Real.pi) 1).Xsig_pred_ 0 c =
      if c.val = 0 then 1 else if c.val = 1 then 0 else if c.val = 2 then -1
      else if c.val = 3 then -2 else if c.val = 4 then -1 else if c.val = 5 then 0
      else if c.val = 6 then 1 + Real.sqrt 3 / 4 else if c.val = 7 then 1
      else if c.val = 8 then -2 else if c.val = 9 then -1 else if c.val = 10 then 0
      else if c.val = 11 then -1 else if c.val = 12 then 0
      else if c.val = 13 then 1 - Real.sqrt 3 / 4 else 1 := by
  have hlam : (wideHeadingFilter Real.pi).lambda_ + ((n_aug_ : ℕ) : ℝ) = 3 := by
    simp [wideHeadingFilter, UKF.new]; norm_num
  have hsp : Real.sqrt 3 * (Real.pi / Real.sqrt 3) = Real.pi := by
    have hs0 : Real.sqrt 3 ≠ 0 := (Real.sqrt_pos.mpr (by norm_num)).ne'
    field_simp
  have hpi : (0.001 : ℝ) < |Real.pi| := by
    rw [abs_of_pos Real.pi_pos]; linarith [Real.pi_gt_three]
  have h0 : ¬ (0.001 : ℝ) < 0 := by norm_num
  simp only [UKF.Prediction, predictSigmaPoints_apply, predictSigmaPoint,
    augmentedSigmaPoints_apply, hlam, wideHeadingFilter_x_aug]
  fin_cases c <;>
    simp [MathLib.real, wideHeadingFactor, Fin.ext_iff, Fin.coe_ofNat_eq_mod, n_aug_, hsp, hpi, h0,
      ctrvTurn, ctrvStraight] <;>
    ring

/-- A sum over the 15 sigma columns, written out. -/
theorem sum_sigma_columns {M : Type} [AddCommMonoid M] (g : Fin (2 * n_aug_ + 1) → M) :
    ∑ i, g i = g 0 + (g 1 + (g 2 + (g 3 + (g 4 + (g 5 + (g 6 + (g 7 + (g 8 + (g 9 + (g 10 +
      (g 11 + (g 12 + (g 13 + g 14))))))))))))) := by
  show ∑ i : Fin 15, g i = _
  simp only [Fin.sum_univ_succ, Fin.sum_univ_zero, add_zero]
  rfl

/-- Entry (0,0) of the predicted covariance: the heading normalisation does not
touch it. -/
theorem predictedCovariance_apply_zero {R : Type} [LinearOrderedField R] (L : MathLib R)
    (w : Fin (2 * n_aug_ + 1) → R) (X : Matrix (Fin n_x_) (Fin (2 * n_aug_ + 1)) R)
    (x : Fin n_x_ → R) :
    predictedCovariance L w X x 0 0 = ∑ i, w i * (X 0 i - x 0) ^ 2 := by
  rw [predictedCovariance_eq_sum, Matrix.sum_apply]
  refine Finset.sum_congr rfl (fun i _ => ?_)
  have h : predictionDiff L X x i 0 = X 0 i - x 0 := by
    simp [predictionDiff, Function.update_noteq (show (0 : Fin n_x_) ≠ 3 by decide)]
  simp only [vecMulVec_apply, Pi.smul_apply, smul_eq_mul, h]
  ring

/-- The predicted `px` variance of the example is negative. -/
theorem wideHeading_P_zero_zero :
    (UKF.Prediction (MathLib.real fun _ => wideHeadingFactor Real.pi (Real.sqrt 3))
      (wideHeadingFilter Real.pi) 1).P_ 0 0 = -125 / 48 := by
  have hs : Real.sqrt 3 * Real.sqrt 3 = 3 := Real.mul_self_sqrt (by norm_num)
  have hX := wideHeading_Xsig_pred_px
  have hl : (wideHeadingFilter Real.pi).lambda_ = -4 := by
    simp [wideHeadingFilter, UKF.new]
  have hP : (UKF.Prediction (MathLib.real fun _ => wideHeadingFactor Real.pi (Real.sqrt 3))
      (wideHeadingFilter Real.pi) 1).P_ 0 0 =
      ∑ i, weightsOf n_aug_ (-4 : ℝ) i *
        ((UKF.Prediction (MathLib.real fun _ => wideHeadingFactor Real.pi (Real.sqrt 3))
            (wideHeadingFilter Real.pi) 1).Xsig_pred_ 0 i -
          ∑ k, weightsOf n_aug_ (-4 : ℝ) k *
            (UKF.Prediction (MathLib.real fun _ => wideHeadingFactor Real.pi (Real.sqrt 3))
              (wideHeadingFilter Real.pi) 1).Xsig_pred_ 0 k) ^ 2 := by
    rw [← hl]
    simp only [UKF.Prediction]
    rw [predictedCovariance_apply_zero, weightedMean_apply]
  rw [hP]
  simp only [hX, weightsOf_filter, sum_sigma_columns]
  simp [Fin.ext_iff, Fin.coe_ofNat_eq_mod, n_aug_]
  ring_nf
  nlinarith [hs]

/-- A positive semi-definite real matrix has a nonnegative (0,0) entry. -/
theorem posSemidef_apply_zero_nonneg (M : Matrix (Fin n_x_) (Fin n_x_) ℝ) (h : M.PosSemidef) :
    0 ≤ M 0 0 := by
  have := h.2 (Pi.single 0 1)
  simpa using this

/-- C7, counterexample: the filter `wideHeadingFilter π` holds a covariance with
the Cholesky factorisation `L Lᵀ` (lower triangular `L`, positive diagonal);
Prediction over one second with that factor stores a covariance whose (0,0)
entry is -125/48, so the predicted covariance is not positive semi-definite. -/
theorem C7_predicted_covariance_not_psd :
    (wideHeadingFactor Real.pi (Real.sqrt 3) * (wideHeadingFactor Real.pi (Real.sqrt 3))ᵀ
        = (wideHeadingFilter Real.pi).P_aug ∧
      (∀ i j, i < j → wideHeadingFactor Real.pi (Real.sqrt 3) i j = 0) ∧
      (∀ i, 0 < wideHeadingFactor Real.pi (Real.sqrt 3) i i)) ∧
    (UKF.Prediction (MathLib.real fun _ => wideHeadingFactor Real.pi (Real.sqrt 3))
      (wideHeadingFilter Real.pi) 1).P_ 0 0 = -125 / 48 ∧
    ¬ (UKF.Prediction (MathLib.real fun _ => wideHeadingFactor Real.pi (Real.sqrt 3))
      (wideHeadingFilter Real.pi) 1).P_.PosSemidef := by
  refine ⟨wideHeadingFactor_cholesky, wideHeading_P_zero_zero, fun h => ?_⟩
  have h0 := posSemidef_apply_zero_nonneg _ h
  rw [wideHeading_P_zero_zero] at h0
  norm_num at h0

/-- C7, amended: with the weights of the filter (n_aug = 7, lambda = -4), for
every set of propagated sigma points the predicted covariance plus 4/3 times
the outer product of the heading-wrapped difference between column 0 and the
predicted mean is positive semi-definite; hence the predicted covariance is
positive semi-definite whenever that difference is zero. -/
theorem C7_predicted_covariance_psd_up_to_centre (L : MathLib ℝ)
    (Xsig_pred : Matrix (Fin n_x_) (Fin (2 * n_aug_ + 1)) ℝ) :
    (predictedCovariance L (weightsOf n_aug_ (-4 : ℝ)) Xsig_pred
          (weightedMean (weightsOf n_aug_ (-4 : ℝ)) Xsig_pred) +
        (4 / 3 : ℝ) • vecMulVec
          (predictionDiff L Xsig_pred (weightedMean (weightsOf n_aug_ (-4 : ℝ)) Xsig_pred) 0)
          (predictionDiff L Xsig_pred (weightedMean (weightsOf n_aug_ (-4 : ℝ)) Xsig_pred) 0)
      ).PosSemidef ∧
    (predictionDiff L Xsig_pred (weightedMean (weightsOf n_aug_ (-4 : ℝ)) Xsig_pred) 0 = 0 →
      (predictedCovariance L (weightsOf n_aug_ (-4 : ℝ)) Xsig_pred
        (weightedMean (weightsOf n_aug_ (-4 : ℝ)) Xsig_pred)).PosSemidef) := by
  have hsym : (predictedCovariance L (weightsOf n_aug_ (-4 : ℝ)) Xsig_pred
      (weightedMean (weightsOf n_aug_ (-4 : ℝ)) Xsig_pred)).IsSymm := by
    rw [predictedCovariance_eq_sum]
    exact isSymm_sum_outer _ _
  have hmain : (predictedCovariance L (weightsOf n_aug_ (-4 : ℝ)) Xsig_pred
          (weightedMean (weightsOf n_aug_ (-4 : ℝ)) Xsig_pred) +
        (4 / 3 : ℝ) • vecMulVec
          (predictionDiff L Xsig_pred (weightedMean (weightsOf n_aug_ (-4 : ℝ)) Xsig_pred) 0)
          (predictionDiff L Xsig_pred (weightedMean (weightsOf n_aug_ (-4 : ℝ)) Xsig_pred) 0)
      ).PosSemidef := by
    refine ⟨?_, fun v => ?_⟩
    · have hsym2 : (vecMulVec
          (predictionDiff L Xsig_pred (weightedMean (weightsOf n_aug_ (-4 : ℝ)) Xsig_pred) 0)
          (predictionDiff L Xsig_pred (weightedMean (weightsOf n_aug_ (-4 : ℝ)) Xsig_pred) 0)
          ).IsSymm := by
        apply Matrix.IsSymm.ext
        intro i j
        simp [vecMulVec_apply, mul_comm]
      have : (predictedCovariance L (weightsOf n_aug_ (-4 : ℝ)) Xsig_pred
          (weightedMean (weightsOf n_aug_ (-4 : ℝ)) Xsig_pred) +
        (4 / 3 : ℝ) • vecMulVec
          (predictionDiff L Xsig_pred (weightedMean (weightsOf n_aug_ (-4 : ℝ)) Xsig_pred) 0)
          (predictionDiff L Xsig_pred (weightedMean (weightsOf n_aug_ (-4 : ℝ)) Xsig_pred) 0)
          ).IsSymm := hsym.add (hsym2.smul _)
      unfold Matrix.IsHermitian
      rw [Matrix.conjTranspose_eq_transpose_of_trivial]
      exact this
    · rw [star_trivial, Matrix.add_mulVec, Matrix.dotProduct_add, Matrix.smul_mulVec_assoc,
        Matrix.dotProduct_smul, predictedCovariance_quadratic_filter, vecMulVec_quadratic,
        smul_eq_mul]
      have hnn : 0 ≤ ∑ i : Fin (2 * n_aug_), 1 / 6 *
          (predictionDiff L Xsig_pred (weightedMean (weightsOf n_aug_ (-4 : ℝ)) Xsig_pred)
            i.succ ⬝ᵥ v) ^ 2 :=
        Finset.sum_nonneg (fun i _ => by positivity)
      linarith
  refine ⟨hmain, fun h0 => ?_⟩
  have hz : vecMulVec (0 : Fin n_x_ → ℝ) (0 : Fin n_x_ → ℝ) = 0 := by
    ext i j; simp [vecMulVec_apply]
  rw [h0, hz, smul_zero, add_zero] at hmain
  exact hmain

/-- Witness of C7, amended: fifteen sigma columns that are all zero. -/
theorem C7_predicted_covariance_psd_up_to_centre_witness :
    (predictedCovariance (MathLib.real id) (weightsOf n_aug_ (-4 : ℝ)) 0
      (weightedMean (weightsOf n_aug_ (-4 : ℝ)) 0)).PosSemidef :=
  (C7_predicted_covariance_psd_up_to_centre (MathLib.real id) 0).2 (by
    funext r
    have hm : weightedMean (weightsOf n_aug_ (-4 : ℝ))
        (0 : Matrix (Fin n_x_) (Fin (2 * n_aug_ + 1)) ℝ) = 0 := by
      funext k
      rw [weightedMean_apply]
      simp
    rw [hm]
    fin_cases r <;> simp [predictionDiff, normalizeAngle, MathLib.real, Function.update])

/-! ## First radar measurement: the covariance -/

/-- C13: for a first measurement of radar type, the covariance set by
ProcessMeasurement is diagonal, its entries (0,0) and (1,1) are each one of the
radar noise variances std_radr^2, std_radphi^2, std_radrd^2 (both are
std_radr^2) and the three remaining diagonal entries are 1. -/
theorem C13_radar_first_covariance {R : Type} [LinearOrderedField R] (L : MathLib R)
    (f : UKF R) (m : MeasurementPackage R)
    (hinit : f.is_initialized_ = false) (hradar : m.sensor_type_ = SensorType.RADAR) :
    (UKF.ProcessMeasurement L f m).P_ =
        Matrix.diagonal ![f.std_radr_ ^ 2, f.std_radr_ ^ 2, 1, 1, 1] ∧
      (∀ i j, i ≠ j → (UKF.ProcessMeasurement L f m).P_ i j = 0) ∧
      (∀ i : Fin n_x_, i.val < 2 →
        (UKF.ProcessMeasurement L f m).P_ i i = f.std_radr_ ^ 2 ∨
        (UKF.ProcessMeasurement L f m).P_ i i = f.std_radphi_ ^ 2 ∨
        (UKF.ProcessMeasurement L f m).P_ i i = f.std_radrd_ ^ 2) ∧
      (∀ i : Fin n_x_, 2 ≤ i.val → (UKF.ProcessMeasurement L f m).P_ i i = 1) := by
  have hP : (UKF.ProcessMeasurement L f m).P_ =
      Matrix.diagonal ![f.std_radr_ ^ 2, f.std_radr_ ^ 2, 1, 1, 1] := by
    simp only [UKF.ProcessMeasurement, hinit, hradar, Bool.not_false, ↓reduceIte, reduceCtorEq]
    ext i j
    fin_cases i <;> fin_cases j <;> simp [Matrix.diagonal, pow_two, Matrix.vecHead, Matrix.vecTail]
  refine ⟨hP, ?_, ?_, ?_⟩
  · intro i j hij
    rw [hP, Matrix.diagonal_apply_ne _ hij]
  · intro i hi
    left
    rw [hP, Matrix.diagonal_apply_eq]
    fin_cases i <;> simp at hi ⊢
  · intro i hi
    rw [hP, Matrix.diagonal_apply_eq]
    fin_cases i <;> simp at hi ⊢

/-- Witness of C13: a freshly constructed filter given a radar measurement. -/
theorem C13_radar_first_covariance_witness :
    (UKF.ProcessMeasurement (MathLib.real id) (UKF.new UKF.blank)
        (radarMeasurement 0 (5.0 : ℝ) 0 0)).P_ =
      Matrix.diagonal ![(0.3 : ℝ) ^ 2, (0.3 : ℝ) ^ 2, 1, 1, 1] :=
  (C13_radar_first_covariance (MathLib.real id) (UKF.new UKF.blank)
    (radarMeasurement 0 (5.0 : ℝ) 0 0) rfl rfl).1

/-! ## The augmented sigma points -/

/-- C15: with lambda = -4 (so lambda + n_aug = 3) the augmented sigma-point
matrix that Prediction builds from the augmented mean m and the factor L has
column 0 equal to m, column i+1 equal to m + sqrt(3) * L[:,i] and column i+8
equal to m - sqrt(3) * L[:,i] for i = 0..6, and m is the state mean followed by
two zeros. -/
theorem C15_augmented_sigma_columns
    (llt : Matrix (Fin n_aug_) (Fin n_aug_) ℝ → Matrix (Fin n_aug_) (Fin n_aug_) ℝ)
    (f : UKF ℝ) (X0 : Matrix (Fin n_aug_) (Fin (2 * n_aug_ + 1)) ℝ)
    (hl : f.lambda_ = -4) :
    (∀ r, augmentedSigmaPoints (MathLib.real llt) f.lambda_ f.x_aug (llt f.P_aug) X0 r 0
        = f.x_aug r) ∧
    (∀ (i : Fin n_aug_) r,
      augmentedSigmaPoints (MathLib.real llt) f.lambda_ f.x_aug (llt f.P_aug) X0 r
          ⟨i.val + 1, by have h : i.val < 7 := i.isLt; show i.val + 1 < 15; omega⟩
        = f.x_aug r + Real.sqrt 3 * llt f.P_aug r i) ∧
    (∀ (i : Fin n_aug_) r,
      augmentedSigmaPoints (MathLib.real llt) f.lambda_ f.x_aug (llt f.P_aug) X0 r
          ⟨i.val + 8, by have h : i.val < 7 := i.isLt; show i.val + 8 < 15; omega⟩
        = f.x_aug r - Real.sqrt 3 * llt f.P_aug r i) ∧
    (∀ k : Fin n_x_, f.x_aug ⟨k.val, by have h : k.val < 5 := k.isLt; show k.val < 7; omega⟩ = f.x_ k) ∧
    f.x_aug 5 = 0 ∧ f.x_aug 6 = 0 := by
  have hs : (MathLib.real llt).sqrt (f.lambda_ + ((n_aug_ : ℕ) : ℝ)) = Real.sqrt 3 := by
    rw [hl]
    simp only [MathLib.real]
    norm_num
  refine ⟨?_, ?_, ?_, ?_, rfl, rfl⟩
  · intro r
    rw [augmentedSigmaPoints_apply]
    simp
  · intro i r
    rw [augmentedSigmaPoints_apply, hs]
    have hi : i.val < 7 := i.isLt
    simp only [Nat.add_one_ne_zero, ↓reduceDIte, Nat.add_sub_cancel]
    rw [dif_pos (show i.val + 1 ≤ 7 by omega)]
  · intro i r
    rw [augmentedSigmaPoints_apply, hs]
    have hi : i.val < 7 := i.isLt
    simp only [Nat.add_one_ne_zero, ↓reduceDIte]
    rw [dif_neg (show ¬ i.val + 8 ≤ 7 by omega)]
    rfl
  · intro k
    have hk : k.val < 5 := k.isLt
    simp [UKF.x_aug, hk]

/-- Witness of C15: the filter of the example `wideHeadingFilter` with its
Cholesky factor. -/
theorem C15_augmented_sigma_columns_witness :
    augmentedSigmaPoints (MathLib.real fun _ => wideHeadingFactor Real.pi (Real.sqrt 3))
        (wideHeadingFilter Real.pi).lambda_ (wideHeadingFilter Real.pi).x_aug
        (wideHeadingFactor Real.pi (Real.sqrt 3)) 0 2 0
      = (wideHeadingFilter Real.pi).x_aug 2 :=
  (C15_augmented_sigma_columns (fun _ => wideHeadingFactor Real.pi (Real.sqrt 3))
    (wideHeadingFilter Real.pi) 0 (by simp [wideHeadingFilter, UKF.new])).1 2

/-! ## The CTRV transition -/

/-- C16: in the CTRV transition the quotient by the yaw rate is used only on the
branch |yaw_rate| > 0.001, where the yaw rate is nonzero; whenever
|yaw_rate| <= 0.001 (yaw_rate = 0 included) the position is the straight-line
form px + v*dt*cos(yaw), py + v*dt*sin(yaw) (plus the noise terms), an
expression without division. -/
theorem C16_no_division_by_zero {R : Type} [LinearOrderedField R] (L : MathLib R)
    (delta_t : R) (c : Fin n_aug_ → R) :
    (|c 4| > 0.001 →
      c 4 ≠ 0 ∧
      predictSigmaPoint L delta_t c 0 =
        (ctrvTurn L (c 0) (c 1) (c 2) (c 3) (c 4) delta_t).1
          + 0.5 * (delta_t * delta_t) * L.cos (c 3) * c 5 ∧
      predictSigmaPoint L delta_t c 1 =
        (ctrvTurn L (c 0) (c 1) (c 2) (c 3) (c 4) delta_t).2
          + 0.5 * (delta_t * delta_t) * L.sin (c 3) * c 5) ∧
    (|c 4| ≤ 0.001 →
      predictSigmaPoint L delta_t c 0 =
        (c 0 + c 2 * delta_t * L.cos (c 3)) + 0.5 * (delta_t * delta_t) * L.cos (c 3) * c 5 ∧
      predictSigmaPoint L delta_t c 1 =
        (c 1 + c 2 * delta_t * L.sin (c 3)) + 0.5 * (delta_t * delta_t) * L.sin (c 3) * c 5) ∧
    (c 4 = 0 →
      predictSigmaPoint L delta_t c 0 =
        (c 0 + c 2 * delta_t * L.cos (c 3)) + 0.5 * (delta_t * delta_t) * L.cos (c 3) * c 5 ∧
      predictSigmaPoint L delta_t c 1 =
        (c 1 + c 2 * delta_t * L.sin (c 3)) + 0.5 * (delta_t * delta_t) * L.sin (c 3) * c 5) := by
  have hstraight : |c 4| ≤ 0.001 →
      predictSigmaPoint L delta_t c 0 =
        (c 0 + c 2 * delta_t * L.cos (c 3)) + 0.5 * (delta_t * delta_t) * L.cos (c 3) * c 5 ∧
      predictSigmaPoint L delta_t c 1 =
        (c 1 + c 2 * delta_t * L.sin (c 3)) + 0.5 * (delta_t * delta_t) * L.sin (c 3) * c 5 := by
    intro h
    have h' : ¬ |c 4| > 0.001 := not_lt.mpr h
    simp [predictSigmaPoint, h', ctrvStraight]
  refine ⟨?_, hstraight, ?_⟩
  · intro h
    refine ⟨?_, ?_, ?_⟩
    · intro h0
      rw [h0, abs_zero] at h
      norm_num at h
    · simp [predictSigmaPoint, h]
    · simp [predictSigmaPoint, h]
  · intro h0
    apply hstraight
    rw [h0, abs_zero]
    norm_num

/-- Witness of C16: a sigma column with yaw rate 0, speed 2, one second. -/
theorem C16_no_division_by_zero_witness :
    predictSigmaPoint (MathLib.real id) 1 (fun k => if k.val = 2 then 2 else 0) 0 = 2 := by
  have h := ((C16_no_division_by_zero (MathLib.real id) 1
    (fun k => if k.val = 2 then 2 else 0)).2.2 (by simp [Fin.coe_ofNat_eq_mod, n_aug_])).1
  rw [h]
  simp [MathLib.real, Fin.coe_ofNat_eq_mod, n_aug_]

/-- The weights for a spreading parameter `lambda`: entry 0 and the others. -/
theorem weightsOf_apply {R : Type} [LinearOrderedField R] (n_aug : Nat) (lambda : R)
    (i : Fin (2 * n_aug + 1)) :
    weightsOf n_aug lambda i =
      if i = 0 then lambda / (lambda + n_aug) else 0.5 / (lambda + n_aug) := by
  unfold weightsOf
  by_cases h : i = 0
  · subst h
    simp
  · simp [Function.update_noteq h, h]

/-- Over zero elapsed time the CTRV transition returns the first five entries of
the augmented column. -/
theorem predictSigmaPoint_zero {R : Type} [LinearOrderedField R] (L : MathLib R)
    (c : Fin n_aug_ → R) (k : Fin n_x_) :
    predictSigmaPoint L 0 c k =
      c ⟨k.val, by have h : k.val < 5 := k.isLt; show k.val < 7; omega⟩ := by
  fin_cases k <;> by_cases h : |c 4| > 0.001 <;>
    simp [predictSigmaPoint, h, ctrvTurn, ctrvStraight] <;> rfl

/-- C18: Prediction over zero elapsed time does not move the estimate: for every
state mean, every factor returned for the augmented covariance and
delta_t = 0, each propagated sigma column is the first five entries of the
corresponding augmented sigma column, and the predicted mean is the state mean
(for the filter's lambda = -4, and for every lambda with lambda + 7 nonzero). -/
theorem C18_zero_time_prediction {R : Type} [LinearOrderedField R] (L : MathLib R)
    (f : UKF R) (hl : f.lambda_ + ((n_aug_ : ℕ) : R) ≠ 0) :
    (∀ (r : Fin n_x_) (c : Fin (2 * n_aug_ + 1)),
      (UKF.Prediction L f 0).Xsig_pred_ r c =
        augmentedSigmaPoints L f.lambda_ f.x_aug (L.llt f.P_aug) 0
          ⟨r.val, by have h : r.val < 5 := r.isLt; show r.val < 7; omega⟩ c) ∧
    (UKF.Prediction L f 0).x_ = f.x_ := by
  have hX : ∀ (r : Fin n_x_) (c : Fin (2 * n_aug_ + 1)),
      (UKF.Prediction L f 0).Xsig_pred_ r c =
        augmentedSigmaPoints L f.lambda_ f.x_aug (L.llt f.P_aug) 0
          ⟨r.val, by have h : r.val < 5 := r.isLt; show r.val < 7; omega⟩ c := by
    intro r c
    simp only [UKF.Prediction]
    rw [predictSigmaPoints_apply, predictSigmaPoint_zero]
  refine ⟨hX, ?_⟩
  funext r
  have hm : (UKF.Prediction L f 0).x_ r =
      ∑ c, weightsOf n_aug_ f.lambda_ c * (UKF.Prediction L f 0).Xsig_pred_ r c := by
    simp only [UKF.Prediction]
    rw [weightedMean_apply]
  have hr : f.x_aug ⟨r.val, by have h : r.val < 5 := r.isLt; show r.val < 7; omega⟩ = f.x_ r := by
    have h : r.val < 5 := r.isLt
    simp [UKF.x_aug, h]
  rw [hm]
  simp only [hX, augmentedSigmaPoints_apply, weightsOf_apply, hr, sum_sigma_columns]
  simp [Fin.ext_iff, Fin.coe_ofNat_eq_mod, n_aug_]
  have hl' : f.lambda_ + 7 ≠ 0 := by
    have h := hl
    push_cast at h
    exact h
  field_simp
  ring

/-- Witness of C18: the example filter `wideHeadingFilter`, lambda = -4. -/
theorem C18_zero_time_prediction_witness :
    (UKF.Prediction (MathLib.real fun _ => wideHeadingFactor Real.pi (Real.sqrt 3))
      (wideHeadingFilter Real.pi) 0).x_ = (wideHeadingFilter Real.pi).x_ :=
  (C18_zero_time_prediction (MathLib.real fun _ => wideHeadingFactor Real.pi (Real.sqrt 3))
    (wideHeadingFilter Real.pi) (by simp [wideHeadingFilter, UKF.new]; norm_num)).2

/-- C20: on the turning branch (|yaw_rate| > 0.001) and with both noise
components zero, the CTRV transition is additive in time: propagating a sigma
column by t1 and then the result (with zero noise again) by t2 gives the same
[px, py, v, yaw, yaw_rate] as propagating the column once by t1 + t2. -/
theorem C20_ctrv_additive_in_time {R : Type} [LinearOrderedField R] (L : MathLib R)
    (c : Fin n_aug_ → R) (t1 t2 : R)
    (hturn : |c 4| > 0.001) (ha : c 5 = 0) (hy : c 6 = 0) :
    predictSigmaPoint L t2
        (fun k => if h : k.val < n_x_ then predictSigmaPoint L t1 c ⟨k.val, h⟩ else 0)
      = predictSigmaPoint L (t1 + t2) c := by
  have hp : ∀ (t : R) (d : Fin n_aug_ → R), |d 4| > 0.001 → d 5 = 0 → d 6 = 0 →
      predictSigmaPoint L t d =
        ![d 0 + d 2 / d 4 * (L.sin (d 3 + d 4 * t) - L.sin (d 3)),
          d 1 + d 2 / d 4 * (L.cos (d 3) - L.cos (d 3 + d 4 * t)),
          d 2, d 3 + d 4 * t, d 4] := by
    intro t d h h5 h6
    simp [predictSigmaPoint, h, h5, h6, ctrvTurn]
  have e1 : c 3 + c 4 * t1 + c 4 * t2 = c 3 + c 4 * (t1 + t2) := by ring
  have hc1 := hp t1 c hturn ha hy
  have v4 : predictSigmaPoint L t1 c 4 = c 4 := by rw [hc1]; rfl
  have v3 : predictSigmaPoint L t1 c 3 = c 3 + c 4 * t1 := by rw [hc1]; rfl
  have v2 : predictSigmaPoint L t1 c 2 = c 2 := by rw [hc1]; rfl
  have v1 : predictSigmaPoint L t1 c 1 =
      c 1 + c 2 / c 4 * (L.cos (c 3) - L.cos (c 3 + c 4 * t1)) := by rw [hc1]; rfl
  have v0 : predictSigmaPoint L t1 c 0 =
      c 0 + c 2 / c 4 * (L.sin (c 3 + c 4 * t1) - L.sin (c 3)) := by rw [hc1]; rfl
  generalize hc' : (fun k : Fin n_aug_ => if h : k.val < n_x_ then
      predictSigmaPoint L t1 c ⟨k.val, h⟩ else 0) = c'
  have h0 : c' 0 = predictSigmaPoint L t1 c 0 := by rw [← hc']; rfl
  have h1 : c' 1 = predictSigmaPoint L t1 c 1 := by rw [← hc']; rfl
  have h2 : c' 2 = predictSigmaPoint L t1 c 2 := by rw [← hc']; rfl
  have h3 : c' 3 = predictSigmaPoint L t1 c 3 := by rw [← hc']; rfl
  have h4 : c' 4 = predictSigmaPoint L t1 c 4 := by rw [← hc']; rfl
  have h5 : c' 5 = 0 := by rw [← hc']; rfl
  have h6 : c' 6 = 0 := by rw [← hc']; rfl
  rw [hp t2 c' (by rw [h4, v4]; exact hturn) h5 h6, hp (t1 + t2) c hturn ha hy]
  rw [h0, h1, h2, h3, h4, v0, v1, v2, v3, v4, e1]
  funext k
  fin_cases k <;> simp <;> ring

/-- Witness of C20: speed 1, yaw rate 1, half a second twice. -/
theorem C20_ctrv_additive_in_time_witness :
    predictSigmaPoint (MathLib.real id) (1 / 2)
        (fun k => if h : k.val < n_x_ then
          predictSigmaPoint (MathLib.real id) (1 / 2)
            (fun j => if j.val = 2 ∨ j.val = 4 then 1 else 0) ⟨k.val, h⟩ else 0)
      = predictSigmaPoint (MathLib.real id) (1 / 2 + 1 / 2)
          (fun j => if j.val = 2 ∨ j.val = 4 then 1 else 0) :=
  C20_ctrv_additive_in_time (MathLib.real id) (fun j => if j.val = 2 ∨ j.val = 4 then 1 else 0)
    (1 / 2) (1 / 2) (by norm_num [Fin.coe_ofNat_eq_mod, n_aug_])
    (by simp [Fin.coe_ofNat_eq_mod, n_aug_]) (by simp [Fin.coe_ofNat_eq_mod, n_aug_])

/-! ## The moments of the augmented sigma points -/

/-- C17: for every augmented mean m and every factor L, with the filter's
weights (lambda = -4), the weighted sum of the 15 augmented sigma columns is m
and the weighted sum of the outer products (column - m)(column - m)^T is
L * L^T. -/
theorem C17_sigma_points_match_moments
    (llt : Matrix (Fin n_aug_) (Fin n_aug_) ℝ → Matrix (Fin n_aug_) (Fin n_aug_) ℝ)
    (m : Fin n_aug_ → ℝ) (Lm : Matrix (Fin n_aug_) (Fin n_aug_) ℝ)
    (X0 : Matrix (Fin n_aug_) (Fin (2 * n_aug_ + 1)) ℝ) :
    weightedMean (weightsOf n_aug_ (-4 : ℝ))
        (augmentedSigmaPoints (MathLib.real llt) (-4) m Lm X0) = m ∧
    ∑ c, vecMulVec
        (weightsOf n_aug_ (-4 : ℝ) c •
          ((fun r => augmentedSigmaPoints (MathLib.real llt) (-4) m Lm X0 r c) - m))
        ((fun r => augmentedSigmaPoints (MathLib.real llt) (-4) m Lm X0 r c) - m)
      = Lm * Lmᵀ := by
  have hs : (MathLib.real llt).sqrt (-4 + ((n_aug_ : ℕ) : ℝ)) = Real.sqrt 3 := by
    simp only [MathLib.real]
    norm_num
  have h3 : Real.sqrt 3 * Real.sqrt 3 = 3 := Real.mul_self_sqrt (by norm_num)
  constructor
  · funext r
    rw [weightedMean_apply]
    simp only [augmentedSigmaPoints_apply, weightsOf_filter, hs, sum_sigma_columns]
    simp [Fin.ext_iff, Fin.coe_ofNat_eq_mod, n_aug_]
    ring
  · ext a b
    rw [Matrix.sum_apply]
    simp only [vecMulVec_apply, Pi.smul_apply, Pi.sub_apply, smul_eq_mul,
      augmentedSigmaPoints_apply, weightsOf_filter, hs, sum_sigma_columns, Matrix.mul_apply,
      Matrix.transpose_apply]
    have h7 : ∀ g : Fin n_aug_ → ℝ, ∑ k, g k = g 0 + g 1 + g 2 + g 3 + g 4 + g 5 + g 6 :=
      fun g => Fin.sum_univ_seven g
    rw [h7]
    simp [Fin.ext_iff, Fin.coe_ofNat_eq_mod, n_aug_]
    linear_combination
      (1 / 3 * (Lm a 0 * Lm b 0 + Lm a 1 * Lm b 1 + Lm a 2 * Lm b 2 + Lm a 3 * Lm b 3
        + Lm a 4 * Lm b 4 + Lm a 5 * Lm b 5 + Lm a 6 * Lm b 6)) * h3

/-! ## The radar projection -/

/-- The radar measurement loop in closed form. -/
theorem radarZsig_apply {R : Type} [LinearOrderedField R] (L : MathLib R)
    (X : Matrix (Fin n_x_) (Fin (2 * n_aug_ + 1)) R) (r : Fin 3) (i : Fin (2 * n_aug_ + 1)) :
    radarZsig L X r i =
      ![L.sqrt (X 0 i * X 0 i + X 1 i * X 1 i), L.atan2 (X 1 i) (X 0 i),
        (X 0 i * (L.cos (X 3 i) * X 2 i) + X 1 i * (L.sin (X 3 i) * X 2 i))
          / L.sqrt (X 0 i * X 0 i + X 1 i * X 1 i)] r := by
  unfold radarZsig
  rw [foldl_finRange_updateColumn
    (fun i => ![L.sqrt (X 0 i * X 0 i + X 1 i * X 1 i), L.atan2 (X 1 i) (X 0 i),
        (X 0 i * (L.cos (X 3 i) * X 2 i) + X 1 i * (L.sin (X 3 i) * X 2 i))
          / L.sqrt (X 0 i * X 0 i + X 1 i * X 1 i)]) 0]

/-- C19: in the radar projection of UpdateRadar, for every propagated sigma
column with (px, py) != (0, 0), the projected range rate
(px*cos(yaw)*v + py*sin(yaw)*v) / sqrt(px^2 + py^2) is at most |v| in absolute
value. -/
theorem C19_range_rate_bounded
    (llt : Matrix (Fin n_aug_) (Fin n_aug_) ℝ → Matrix (Fin n_aug_) (Fin n_aug_) ℝ)
    (X : Matrix (Fin n_x_) (Fin (2 * n_aug_ + 1)) ℝ) (i : Fin (2 * n_aug_ + 1))
    (hpos : ¬ (X 0 i = 0 ∧ X 1 i = 0)) :
    |radarZsig (MathLib.real llt) X 2 i| ≤ |X 2 i| := by
  have hval : radarZsig (MathLib.real llt) X 2 i =
      (X 0 i * (Real.cos (X 3 i) * X 2 i) + X 1 i * (Real.sin (X 3 i) * X 2 i))
        / Real.sqrt (X 0 i * X 0 i + X 1 i * X 1 i) := by
    rw [radarZsig_apply]
    rfl
  have hsum : 0 < X 0 i * X 0 i + X 1 i * X 1 i := by
    by_contra hle
    have h0 : X 0 i * X 0 i + X 1 i * X 1 i = 0 :=
      le_antisymm (not_lt.mp hle) (add_nonneg (mul_self_nonneg _) (mul_self_nonneg _))
    apply hpos
    constructor <;> nlinarith [mul_self_nonneg (X 0 i), mul_self_nonneg (X 1 i)]
  have hrho : 0 < Real.sqrt (X 0 i * X 0 i + X 1 i * X 1 i) := Real.sqrt_pos.mpr hsum
  have hcs : |X 0 i * Real.cos (X 3 i) + X 1 i * Real.sin (X 3 i)|
      ≤ Real.sqrt (X 0 i * X 0 i + X 1 i * X 1 i) := by
    apply Real.abs_le_sqrt
    nlinarith [Real.sin_sq_add_cos_sq (X 3 i),
      sq_nonneg (X 0 i * Real.sin (X 3 i) - X 1 i * Real.cos (X 3 i))]
  rw [hval, abs_div, abs_of_pos hrho, div_le_iff₀ hrho]
  have he : X 0 i * (Real.cos (X 3 i) * X 2 i) + X 1 i * (Real.sin (X 3 i) * X 2 i)
      = X 2 i * (X 0 i * Real.cos (X 3 i) + X 1 i * Real.sin (X 3 i)) := by ring
  rw [he, abs_mul]
  exact mul_le_mul_of_nonneg_left hcs (abs_nonneg _)

/-- Witness of C19: fifteen columns at (px, py) = (3, 4) with speed 2 and
heading 0. -/
theorem C19_range_rate_bounded_witness :
    |radarZsig (MathLib.real id)
        (fun r _ => if r.val = 0 then 3 else if r.val = 1 then 4 else if r.val = 2 then 2 else 0)
        2 0| ≤ (2 : ℝ) := by
  have h := C19_range_rate_bounded id
    (fun r _ => if r.val = 0 then 3 else if r.val = 1 then 4 else if r.val = 2 then 2 else 0)
    0 (by norm_num)
  simpa using h

/-! ## Trace of the covariance under an update -/

/-- The laser measurement loop in closed form. -/
theorem lidarZsig_apply {R : Type} [LinearOrderedField R]
    (X : Matrix (Fin n_x_) (Fin (2 * n_aug_ + 1)) R) (r : Fin 2) (i : Fin (2 * n_aug_ + 1)) :
    lidarZsig X r i = ![X 0 i, X 1 i] r := by
  unfold lidarZsig
  rw [foldl_finRange_updateColumn (fun i => ![X 0 i, X 1 i]) 0]

/-- The cross correlation of the laser update as a sum. -/
theorem lidarTc_eq_sum {R : Type} [LinearOrderedField R] (f : UKF R) :
    f.lidarTc =
      ∑ i, vecMulVec
        (f.weights_ i • ((fun r => f.Xsig_pred_ r i) - f.x_))
        ((fun r => lidarZsig f.Xsig_pred_ r i) -
          weightedMean f.weights_ (lidarZsig f.Xsig_pred_)) := by
  unfold UKF.lidarTc
  exact (foldl_finRange_add _ 0).trans (zero_add _)

/-- The trace of a real positive semi-definite matrix is nonnegative. -/
theorem posSemidef_trace_nonneg {n : Nat} (M : Matrix (Fin n) (Fin n) ℝ) (h : M.PosSemidef) :
    0 ≤ Matrix.trace M := by
  unfold Matrix.trace
  refine Finset.sum_nonneg (fun i _ => ?_)
  have := h.2 (Pi.single i 1)
  simpa using this

/-- For a positive semi-definite `S` the correction `K S Kᵀ` has a nonnegative
trace, so subtracting it does not raise the trace. -/
theorem trace_sub_gain_le {n k : Nat} (P : Matrix (Fin n) (Fin n) ℝ)
    (K : Matrix (Fin n) (Fin k) ℝ) (S : Matrix (Fin k) (Fin k) ℝ) (hS : S.PosSemidef) :
    Matrix.trace (P - K * S * Kᵀ) ≤ Matrix.trace P := by
  have h := posSemidef_trace_nonneg _ (hS.mul_mul_conjTranspose_same K)
  rw [Matrix.conjTranspose_eq_transpose_of_trivial] at h
  rw [Matrix.trace_sub]
  linarith

/-! ## Prediction and a failed factorisation -/

/-- The augmented covariance of `negativeCovarianceFilter`: diagonal, with -1 in
the five state entries and 0.25 in the two noise entries. -/
theorem negativeCovariance_P_aug {R : Type} [LinearOrderedField R] :
    (negativeCovarianceFilter : UKF R).P_aug = fun i j =>
      if i = j then (if i.val < 5 then -1 else 0.5 * 0.5) else 0 := by
  ext i j
  fin_cases i <;> fin_cases j <;> rfl

/-- The augmented mean of `negativeCovarianceFilter` is zero. -/
theorem negativeCovariance_x_aug {R : Type} [LinearOrderedField R] :
    (negativeCovarianceFilter : UKF R).x_aug = 0 := by
  ext i
  fin_cases i <;> rfl

/-- C12, counterexample: the augmented covariance of `negativeCovarianceFilter`
is not positive semi-definite and has no factor L with L L^T equal to it, yet
Prediction (here with the factorisation routine returning its input, as a
failed Cholesky routine would leave it) returns an ordinary filter state: the
sigma points are computed from the returned matrix (entries -sqrt 3 and sqrt 3
in the px row), the mean and covariance are computed from them, and no other
member records a failure. -/
theorem C12_prediction_proceeds_without_factor :
    ¬ (negativeCovarianceFilter : UKF ℝ).P_aug.PosSemidef ∧
    (∀ Lm : Matrix (Fin n_aug_) (Fin n_aug_) ℝ,
      Lm * Lmᵀ ≠ (negativeCovarianceFilter : UKF ℝ).P_aug) ∧
    (UKF.Prediction (MathLib.real id) negativeCovarianceFilter 1).Xsig_pred_ 0 1
      = -Real.sqrt 3 ∧
    (UKF.Prediction (MathLib.real id) negativeCovarianceFilter 1).Xsig_pred_ 0 8
      = Real.sqrt 3 ∧
    (UKF.Prediction (MathLib.real id) negativeCovarianceFilter 1).x_ =
      weightedMean (UKF.Prediction (MathLib.real id) negativeCovarianceFilter 1).weights_
        (UKF.Prediction (MathLib.real id) negativeCovarianceFilter 1).Xsig_pred_ ∧
    (UKF.Prediction (MathLib.real id) negativeCovarianceFilter 1).P_ =
      predictedCovariance (MathLib.real id)
        (UKF.Prediction (MathLib.real id) negativeCovarianceFilter 1).weights_
        (UKF.Prediction (MathLib.real id) negativeCovarianceFilter 1).Xsig_pred_
        (UKF.Prediction (MathLib.real id) negativeCovarianceFilter 1).x_ ∧
    UKF.Prediction (MathLib.real id) negativeCovarianceFilter 1 =
      { (negativeCovarianceFilter : UKF ℝ) with
        Xsig_pred_ := (UKF.Prediction (MathLib.real id) negativeCovarianceFilter 1).Xsig_pred_
        weights_ := (UKF.Prediction (MathLib.real id) negativeCovarianceFilter 1).weights_
        x_ := (UKF.Prediction (MathLib.real id) negativeCovarianceFilter 1).x_
        P_ := (UKF.Prediction (MathLib.real id) negativeCovarianceFilter 1).P_ } := by
  have h00 : (negativeCovarianceFilter : UKF ℝ).P_aug 0 0 = -1 := by
    rw [negativeCovariance_P_aug]; simp
  have hlam : (negativeCovarianceFilter : UKF ℝ).lambda_ + ((n_aug_ : ℕ) : ℝ) = 3 := by
    simp [negativeCovarianceFilter, UKF.new]; norm_num
  have h0 : ¬ (0.001 : ℝ) < 0 := by norm_num
  refine ⟨?_, ?_, ?_, ?_, rfl, rfl, rfl⟩
  · intro h
    have h1 := h.2 (Pi.single 0 1)
    simp only [star_trivial, Matrix.mulVec_single, mul_one, Matrix.single_dotProduct,
      one_mul] at h1
    rw [h00] at h1
    norm_num at h1
  · intro Lm hL
    have h1 : (Lm * Lmᵀ) 0 0 = -1 := by rw [hL, h00]
    rw [Matrix.mul_apply] at h1
    have h2 : 0 ≤ ∑ j, Lm 0 j * Lmᵀ j 0 :=
      Finset.sum_nonneg (fun j _ => by rw [Matrix.transpose_apply]; exact mul_self_nonneg _)
    linarith
  · simp only [UKF.Prediction, predictSigmaPoints_apply, predictSigmaPoint,
      augmentedSigmaPoints_apply, hlam, negativeCovariance_x_aug, negativeCovariance_P_aug]
    simp [MathLib.real, Fin.ext_iff, Fin.coe_ofNat_eq_mod, n_aug_, h0, ctrvStraight]
  · simp only [UKF.Prediction, predictSigmaPoints_apply, predictSigmaPoint,
      augmentedSigmaPoints_apply, hlam, negativeCovariance_x_aug, negativeCovariance_P_aug]
    simp [MathLib.real, Fin.ext_iff, Fin.coe_ofNat_eq_mod, n_aug_, h0, ctrvStraight]

/-- C12, amended: Prediction has no failure signal.  For every filter state,
whether or not its augmented covariance is positive semi-definite, Prediction
returns the state with only `Xsig_pred_`, `weights_`, `x_` and `P_` rewritten,
and propagated sigma column c is the CTRV image of the column built from the
matrix that the factorisation routine returned: the augmented mean for c = 0,
the mean plus sqrt(lambda+7) times column c-1 of that matrix for 1 <= c <= 7,
the mean minus sqrt(lambda+7) times column c-8 for c >= 8. -/
theorem C12_prediction_has_no_failure_signal {R : Type} [LinearOrderedField R]
    (L : MathLib R) (f : UKF R) (delta_t : R) :
    UKF.Prediction L f delta_t =
      { f with
        Xsig_pred_ := (UKF.Prediction L f delta_t).Xsig_pred_
        weights_ := weightsOf n_aug_ f.lambda_
        x_ := weightedMean (weightsOf n_aug_ f.lambda_) (UKF.Prediction L f delta_t).Xsig_pred_
        P_ := predictedCovariance L (weightsOf n_aug_ f.lambda_)
          (UKF.Prediction L f delta_t).Xsig_pred_
          (weightedMean (weightsOf n_aug_ f.lambda_) (UKF.Prediction L f delta_t).Xsig_pred_) } ∧
    ∀ (r : Fin n_x_) (c : Fin (2 * n_aug_ + 1)),
      (UKF.Prediction L f delta_t).Xsig_pred_ r c =
        predictSigmaPoint L delta_t
          (fun k =>
            if c.val = 0 then f.x_aug k
            else if h1 : c.val ≤ n_aug_ then
              f.x_aug k + L.sqrt (f.lambda_ + n_aug_) *
                L.llt f.P_aug k ⟨c.val - 1, by have h2 : c.val ≤ 7 := h1; show c.val - 1 < 7; omega⟩
            else
              f.x_aug k - L.sqrt (f.lambda_ + n_aug_) *
                L.llt f.P_aug k
                  ⟨c.val - 1 - n_aug_, by have h : c.val < 15 := c.isLt; show c.val - 1 - 7 < 7; omega⟩) r := by
  refine ⟨rfl, fun r c => ?_⟩
  simp only [UKF.Prediction]
  rw [predictSigmaPoints_apply]
  congr 1
  funext k
  rw [augmentedSigmaPoints_apply]
  by_cases h0 : c.val = 0
  · simp [h0]
  · simp [h0]

/-! ## The cross correlation of the radar update -/

/-- The cross correlation of the radar update as a sum. -/
theorem radarTc_eq_sum {R : Type} [LinearOrderedField R] (L : MathLib R) (f : UKF R) :
    f.radarTc L =
      ∑ i, vecMulVec
        (f.weights_ i • radarXdiff L f.Xsig_pred_ f.x_ i)
        (radarZdiff L (radarZsig L f.Xsig_pred_)
          (weightedMean f.weights_ (radarZsig L f.Xsig_pred_)) i) := by
  unfold UKF.radarTc
  exact (foldl_finRange_add _ 0).trans (zero_add _)

/-- The cross correlation in the wording of the specification as a sum. -/
theorem radarTcSpec_eq_sum {R : Type} [LinearOrderedField R] (L : MathLib R) (f : UKF R) :
    f.radarTcSpec L =
      ∑ i, vecMulVec
        (f.weights_ i • radarXdiffSpec L f.Xsig_pred_ f.x_ i)
        (radarZdiff L (radarZsig L f.Xsig_pred_)
          (weightedMean f.weights_ (radarZsig L f.Xsig_pred_)) i) := by
  unfold UKF.radarTcSpec
  exact (foldl_finRange_add _ 0).trans (zero_add _)

/-- The state difference used by UpdateRadar normalises entry 1 (`py`) and
leaves entry 3 (the heading) as the plain difference. -/
theorem radarXdiff_entries {R : Type} [LinearOrderedField R] (L : MathLib R)
    (X : Matrix (Fin n_x_) (Fin (2 * n_aug_ + 1)) R) (x : Fin n_x_ → R)
    (i : Fin (2 * n_aug_ + 1)) :
    radarXdiff L X x i 1 = normalizeAngle L (X 1 i - x 1) ∧
    radarXdiff L X x i 3 = X 3 i - x 3 := by
  constructor
  · simp [radarXdiff]
  · simp [radarXdiff, Function.update_noteq (show (3 : Fin n_x_) ≠ 1 by decide)]

/-- Over the reals the normalisation is the identity on `(-π, π]`. -/
theorem normalizeAngle_of_mem
    (llt : Matrix (Fin n_aug_) (Fin n_aug_) ℝ → Matrix (Fin n_aug_) (Fin n_aug_) ℝ) (d : ℝ)
    (h : d ∈ Set.Ioc (-Real.pi) Real.pi) : normalizeAngle (MathLib.real llt) d = d := by
  have h1 : normalizeAngle (MathLib.real llt) d
      = Complex.arg (Complex.cos d + Complex.sin d * Complex.I) := by
    simp [normalizeAngle, MathLib.real]
  rw [h1, Complex.arg_cos_add_sin_mul_I h]

/-- Over the reals the normalisation of 4 is `4 - 2π`, and of -4 is `-4 + 2π`. -/
theorem normalizeAngle_four
    (llt : Matrix (Fin n_aug_) (Fin n_aug_) ℝ → Matrix (Fin n_aug_) (Fin n_aug_) ℝ) :
    normalizeAngle (MathLib.real llt) 4 = 4 - 2 * Real.pi ∧
    normalizeAngle (MathLib.real llt) (-4) = -4 + 2 * Real.pi := by
  have hp3 := Real.pi_gt_three
  have hp4 := Real.pi_lt_315
  constructor
  · have h1 : normalizeAngle (MathLib.real llt) 4
        = normalizeAngle (MathLib.real llt) (4 - 2 * Real.pi) := by
      simp [normalizeAngle, MathLib.real, Real.sin_sub_two_pi, Real.cos_sub_two_pi]
    rw [h1]
    exact normalizeAngle_of_mem llt _ ⟨by linarith, by linarith⟩
  · have h1 : normalizeAngle (MathLib.real llt) (-4)
        = normalizeAngle (MathLib.real llt) (-4 + 2 * Real.pi) := by
      simp [normalizeAngle, MathLib.real, Real.sin_add_two_pi, Real.cos_add_two_pi]
    rw [h1]
    exact normalizeAngle_of_mem llt _ ⟨by linarith, by linarith⟩

/-- The augmented mean of `widePositionFilter`. -/
theorem widePosition_x_aug {R : Type} [LinearOrderedField R] :
    (widePositionFilter : UKF R).x_aug = fun i => if i.val = 0 then 3 else 0 := by
  ext i
  fin_cases i <;> rfl

/-- The augmented covariance of `widePositionFilter`, entry by entry. -/
theorem widePosition_P_aug {R : Type} [LinearOrderedField R] :
    (widePositionFilter : UKF R).P_aug = fun i j =>
      if i = j then
        (if i.val = 1 then 16 / 3 else if i.val < 5 then 1 / 3 else 0.5 * 0.5)
      else 0 := by
  ext i j
  fin_cases i <;> fin_cases j <;> rfl

/-- `widePositionFactor √3` is the Cholesky factor of the augmented covariance of
`widePositionFilter`: lower triangular, positive diagonal, `L Lᵀ = P_aug`. -/
theorem widePositionFactor_cholesky :
    widePositionFactor (Real.sqrt 3) * (widePositionFactor (Real.sqrt 3))ᵀ
        = (widePositionFilter : UKF ℝ).P_aug ∧
      (∀ i j, i < j → widePositionFactor (Real.sqrt 3) i j = 0) ∧
      (∀ i, 0 < widePositionFactor (Real.sqrt 3) i i) := by
  have hs : Real.sqrt 3 * Real.sqrt 3 = 3 := Real.mul_self_sqrt (by norm_num)
  have hsp : 0 < Real.sqrt 3 := Real.sqrt_pos.mpr (by norm_num)
  have hs0 : Real.sqrt 3 ≠ 0 := hsp.ne'
  refine ⟨?_, ?_, ?_⟩
  · rw [widePosition_P_aug]
    ext i j
    fin_cases i <;> fin_cases j <;>
      simp [widePositionFactor, Matrix.mul_apply, Fin.sum_univ_succ, Fin.ext_iff] <;>
      (try field_simp) <;> (try nlinarith [hs])
  · intro i j hij
    simp [widePositionFactor, ne_of_lt hij]
  · intro i
    simp only [widePositionFactor, if_true]
    split_ifs
    · positivity
    · positivity
    · norm_num

/-- The `px` and `py` rows of the sigma points that Prediction propagates from
`widePositionFilter` over zero elapsed time. -/
theorem widePosition_Xsig_pred (c : Fin (2 * n_aug_ + 1)) :
    (UKF.Prediction (MathLib.real fun _ => widePositionFactor (Real.sqrt 3))
        widePositionFilter 0).Xsig_pred_ 0 c =
      (if c.val = 1 then 4 else if c.val = 8 then 2 else 3) ∧
    (UKF.Prediction (MathLib.real fun _ => widePositionFactor (Real.sqrt 3))
        widePositionFilter 0).Xsig_pred_ 1 c =
      (if c.val = 2 then 4 else if c.val = 9 then -4 else 0) := by
  have hlam : (widePositionFilter : UKF ℝ).lambda_ + ((n_aug_ : ℕ) : ℝ) = 3 := by
    simp [widePositionFilter, UKF.new]; norm_num
  have hs0 : Real.sqrt 3 ≠ 0 := (Real.sqrt_pos.mpr (by norm_num)).ne'
  have h4 : Real.sqrt 3 * (4 / Real.sqrt 3) = 4 := by field_simp
  have h1 : Real.sqrt 3 * (Real.sqrt 3)⁻¹ = 1 := by field_simp
  simp only [UKF.Prediction, predictSigmaPoints_apply, predictSigmaPoint_zero,
    augmentedSigmaPoints_apply, hlam, widePosition_x_aug]
  fin_cases c <;>
    simp [MathLib.real, widePositionFactor, Fin.ext_iff, Fin.coe_ofNat_eq_mod, n_aug_, h4, h1] <;>
    norm_num

/-- The argument of `3 + 4i` lies strictly between 0 and π, and the argument of
`3 - 4i` is its negative. -/
theorem arg_three_four :
    0 < Complex.arg (3 + 4 * Complex.I) ∧ Complex.arg (3 + 4 * Complex.I) < Real.pi ∧
    Complex.arg (3 + -4 * Complex.I) = -Complex.arg (3 + 4 * Complex.I) := by
  have hre : (3 + 4 * Complex.I : ℂ).re = 3 := by simp
  have him : (3 + 4 * Complex.I : ℂ).im = 4 := by simp
  have hlt : Complex.arg (3 + 4 * Complex.I) < Real.pi := by
    rw [Complex.arg_lt_pi_iff, hre]
    left; norm_num
  refine ⟨?_, hlt, ?_⟩
  · have h0 : 0 ≤ Complex.arg (3 + 4 * Complex.I) := by
      rw [Complex.arg_nonneg_iff, him]; norm_num
    have h1 : Complex.arg (3 + 4 * Complex.I) ≠ 0 := by
      rw [Ne, Complex.arg_eq_zero_iff, him]
      norm_num
    exact lt_of_le_of_ne h0 (Ne.symm h1)
  · have hc : (3 + -4 * Complex.I : ℂ) = (starRingEnd ℂ) (3 + 4 * Complex.I) := by
      apply Complex.ext <;> simp
    rw [hc, Complex.arg_conj, if_neg (ne_of_lt hlt)]

/-- The bearing row of the radar projection of the sigma points propagated from
`widePositionFilter` over zero elapsed time. -/
theorem widePosition_bearing (c : Fin (2 * n_aug_ + 1)) :
    radarZsig (MathLib.real fun _ => widePositionFactor (Real.sqrt 3))
      (UKF.Prediction (MathLib.real fun _ => widePositionFactor (Real.sqrt 3))
        widePositionFilter 0).Xsig_pred_ 1 c =
      if c.val = 2 then Complex.arg (3 + 4 * Complex.I)
      else if c.val = 9 then -Complex.arg (3 + 4 * Complex.I) else 0 := by
  have hval : radarZsig (MathLib.real fun _ => widePositionFactor (Real.sqrt 3))
      (UKF.Prediction (MathLib.real fun _ => widePositionFactor (Real.sqrt 3))
        widePositionFilter 0).Xsig_pred_ 1 c =
      Complex.arg
        ((((UKF.Prediction (MathLib.real fun _ => widePositionFactor (Real.sqrt 3))
          widePositionFilter 0).Xsig_pred_ 0 c : ℝ) : ℂ) +
        (((UKF.Prediction (MathLib.real fun _ => widePositionFactor (Real.sqrt 3))
          widePositionFilter 0).Xsig_pred_ 1 c : ℝ) : ℂ) * Complex.I) := by
    rw [radarZsig_apply]
    rfl
  rw [hval, (widePosition_Xsig_pred c).1, (widePosition_Xsig_pred c).2]
  have h3 : Complex.arg (3 : ℂ) = 0 := by
    have := Complex.arg_ofReal_of_nonneg (show (0 : ℝ) ≤ 3 by norm_num)
    simpa using this
  have h2 : Complex.arg (2 : ℂ) = 0 := by
    have := Complex.arg_ofReal_of_nonneg (show (0 : ℝ) ≤ 2 by norm_num)
    simpa using this
  have h4 : Complex.arg (4 : ℂ) = 0 := by
    have := Complex.arg_ofReal_of_nonneg (show (0 : ℝ) ≤ 4 by norm_num)
    simpa using this
  have h9 : Complex.arg (3 + -(4 * Complex.I)) = -Complex.arg (3 + 4 * Complex.I) := by
    have h := arg_three_four.2.2
    rwa [neg_mul] at h
  fin_cases c <;>
    simp [Fin.coe_ofNat_eq_mod, n_aug_, h2, h3, h4, h9]

/-- C14, the code at a failing input.  `widePositionFilter` (position (3, 0),
`py` variance 16/3, Cholesky factor `widePositionFactor √3`) is propagated over
zero elapsed time.  Entry (1,1) of the cross correlation that UpdateRadar then
computes is `(4 - 2π)/3 · arg(3+4i)`, a negative number, because the code wraps
the `py` difference (state index 1); with the heading (state index 3) wrapped
instead, as the claim says, the entry is `4/3 · arg(3+4i)`, a positive number. -/
theorem C14_radar_cross_correlation_wraps_py :
    (widePositionFactor (Real.sqrt 3) * (widePositionFactor (Real.sqrt 3))ᵀ
        = (widePositionFilter : UKF ℝ).P_aug) ∧
    UKF.radarTc (MathLib.real fun _ => widePositionFactor (Real.sqrt 3))
        (UKF.Prediction (MathLib.real fun _ => widePositionFactor (Real.sqrt 3))
          widePositionFilter 0) 1 1
      = (4 - 2 * Real.pi) / 3 * Complex.arg (3 + 4 * Complex.I) ∧
    UKF.radarTcSpec (MathLib.real fun _ => widePositionFactor (Real.sqrt 3))
        (UKF.Prediction (MathLib.real fun _ => widePositionFactor (Real.sqrt 3))
          widePositionFilter 0) 1 1
      = 4 / 3 * Complex.arg (3 + 4 * Complex.I) ∧
    UKF.radarTc (MathLib.real fun _ => widePositionFactor (Real.sqrt 3))
        (UKF.Prediction (MathLib.real fun _ => widePositionFactor (Real.sqrt 3))
          widePositionFilter 0)
      ≠ UKF.radarTcSpec (MathLib.real fun _ => widePositionFactor (Real.sqrt 3))
        (UKF.Prediction (MathLib.real fun _ => widePositionFactor (Real.sqrt 3))
          widePositionFilter 0) := by
  have hα := arg_three_four
  have hw : (UKF.Prediction (MathLib.real fun _ => widePositionFactor (Real.sqrt 3))
      widePositionFilter 0).weights_ = weightsOf n_aug_ (-4 : ℝ) := by
    have hl : (widePositionFilter : UKF ℝ).lambda_ = -4 := by
      simp [widePositionFilter, UKF.new]
    simp only [UKF.Prediction, hl]
  have hx : (UKF.Prediction (MathLib.real fun _ => widePositionFactor (Real.sqrt 3))
      widePositionFilter 0).x_ 1 = 0 := by
    have h : (UKF.Prediction (MathLib.real fun _ => widePositionFactor (Real.sqrt 3))
        widePositionFilter 0).x_ =
        weightedMean (UKF.Prediction (MathLib.real fun _ => widePositionFactor (Real.sqrt 3))
            widePositionFilter 0).weights_
          (UKF.Prediction (MathLib.real fun _ => widePositionFactor (Real.sqrt 3))
            widePositionFilter 0).Xsig_pred_ := rfl
    rw [h, weightedMean_apply, hw]
    simp only [fun c => (widePosition_Xsig_pred c).2, weightsOf_filter, sum_sigma_columns]
    simp [Fin.ext_iff, Fin.coe_ofNat_eq_mod, n_aug_]
  have hzp : weightedMean (weightsOf n_aug_ (-4 : ℝ))
      (radarZsig (MathLib.real fun _ => widePositionFactor (Real.sqrt 3))
        (UKF.Prediction (MathLib.real fun _ => widePositionFactor (Real.sqrt 3))
          widePositionFilter 0).Xsig_pred_) 1 = 0 := by
    rw [weightedMean_apply]
    simp only [widePosition_bearing, weightsOf_filter, sum_sigma_columns]
    simp [Fin.ext_iff, Fin.coe_ofNat_eq_mod, n_aug_]
  have hn0 : normalizeAngle (MathLib.real fun _ => widePositionFactor (Real.sqrt 3)) 0 = 0 :=
    normalizeAngle_of_mem _ 0 ⟨by linarith [Real.pi_pos], Real.pi_pos.le⟩
  have hnα : normalizeAngle (MathLib.real fun _ => widePositionFactor (Real.sqrt 3))
      (Complex.arg (3 + 4 * Complex.I)) = Complex.arg (3 + 4 * Complex.I) :=
    normalizeAngle_of_mem _ _ (Complex.arg_mem_Ioc _)
  have hnα' : normalizeAngle (MathLib.real fun _ => widePositionFactor (Real.sqrt 3))
      (-Complex.arg (3 + 4 * Complex.I)) = -Complex.arg (3 + 4 * Complex.I) :=
    normalizeAngle_of_mem _ _ ⟨by linarith [hα.2.1], by linarith [hα.1, Real.pi_pos]⟩
  have hn4 := normalizeAngle_four (fun _ => widePositionFactor (Real.sqrt 3))
  have hcode : UKF.radarTc (MathLib.real fun _ => widePositionFactor (Real.sqrt 3))
        (UKF.Prediction (MathLib.real fun _ => widePositionFactor (Real.sqrt 3))
          widePositionFilter 0) 1 1
      = (4 - 2 * Real.pi) / 3 * Complex.arg (3 + 4 * Complex.I) := by
    rw [radarTc_eq_sum, Matrix.sum_apply, hw]
    simp only [vecMulVec_apply, Pi.smul_apply, smul_eq_mul, radarXdiff, radarZdiff,
      Function.update_same, Pi.sub_apply, hx, hzp, widePosition_bearing,
      fun c => (widePosition_Xsig_pred c).2, weightsOf_filter, sum_sigma_columns]
    simp [Fin.ext_iff, Fin.coe_ofNat_eq_mod, n_aug_, hn0, hnα, hnα', hn4.1, hn4.2]
    ring
  have hspec : UKF.radarTcSpec (MathLib.real fun _ => widePositionFactor (Real.sqrt 3))
        (UKF.Prediction (MathLib.real fun _ => widePositionFactor (Real.sqrt 3))
          widePositionFilter 0) 1 1
      = 4 / 3 * Complex.arg (3 + 4 * Complex.I) := by
    rw [radarTcSpec_eq_sum, Matrix.sum_apply, hw]
    simp only [vecMulVec_apply, Pi.smul_apply, smul_eq_mul, radarXdiffSpec, radarZdiff,
      Function.update_same, Function.update_noteq (show (1 : Fin n_x_) ≠ 3 by decide),
      Pi.sub_apply, hx, hzp, widePosition_bearing,
      fun c => (widePosition_Xsig_pred c).2, weightsOf_filter, sum_sigma_columns]
    simp [Fin.ext_iff, Fin.coe_ofNat_eq_mod, n_aug_, hn0, hnα, hnα']
    ring
  refine ⟨widePositionFactor_cholesky.1, hcode, hspec, fun h => ?_⟩
  have h11 := congrFun (congrFun h 1) 1
  rw [hcode, hspec] at h11
  have hpi := Real.pi_pos
  have : (2 * Real.pi) / 3 * Complex.arg (3 + 4 * Complex.I) = 0 := by linarith
  have hpos : 0 < (2 * Real.pi) / 3 * Complex.arg (3 + 4 * Complex.I) :=
    mul_pos (by positivity) hα.1
  linarith

/-! ## The updates after a prediction from `widePositionFilter` -/

/-- The speed, heading and yaw-rate rows of the sigma points that Prediction
propagates from `widePositionFilter` over zero elapsed time. -/
theorem widePosition_Xsig_pred_rest (c : Fin (2 * n_aug_ + 1)) :
    (UKF.Prediction (MathLib.real fun _ => widePositionFactor (Real.sqrt 3))
        widePositionFilter 0).Xsig_pred_ 2 c =
      (if c.val = 3 then 1 else if c.val = 10 then -1 else 0) ∧
    (UKF.Prediction (MathLib.real fun _ => widePositionFactor (Real.sqrt 3))
        widePositionFilter 0).Xsig_pred_ 3 c =
      (if c.val = 4 then 1 else if c.val = 11 then -1 else 0) ∧
    (UKF.Prediction (MathLib.real fun _ => widePositionFactor (Real.sqrt 3))
        widePositionFilter 0).Xsig_pred_ 4 c =
      (if c.val = 5 then 1 else if c.val = 12 then -1 else 0) := by
  have hlam : (widePositionFilter : UKF ℝ).lambda_ + ((n_aug_ : ℕ) : ℝ) = 3 := by
    simp [widePositionFilter, UKF.new]; norm_num
  have hs0 : Real.sqrt 3 ≠ 0 := (Real.sqrt_pos.mpr (by norm_num)).ne'
  have h4 : Real.sqrt 3 * (4 / Real.sqrt 3) = 4 := by field_simp
  have h1 : Real.sqrt 3 * (Real.sqrt 3)⁻¹ = 1 := by field_simp
  simp only [UKF.Prediction, predictSigmaPoints_apply, predictSigmaPoint_zero,
    augmentedSigmaPoints_apply, hlam, widePosition_x_aug]
  fin_cases c <;>
    simp [MathLib.real, widePositionFactor, Fin.ext_iff, Fin.coe_ofNat_eq_mod, n_aug_, h4, h1] <;>
    norm_num

/-- The weights that Prediction stores for `widePositionFilter`. -/
theorem widePosition_weights :
    (UKF.Prediction (MathLib.real fun _ => widePositionFactor (Real.sqrt 3))
        widePositionFilter 0).weights_ = weightsOf n_aug_ (-4 : ℝ) := by
  have hl : (widePositionFilter : UKF ℝ).lambda_ = -4 := by
    simp [widePositionFilter, UKF.new]
  simp only [UKF.Prediction, hl]

/-- The mean that Prediction stores for `widePositionFilter` over zero elapsed
time: the position (3, 0) at rest. -/
theorem widePosition_x :
    (UKF.Prediction (MathLib.real fun _ => widePositionFactor (Real.sqrt 3))
        widePositionFilter 0).x_ = fun r => if r.val = 0 then 3 else 0 := by
  have h : (UKF.Prediction (MathLib.real fun _ => widePositionFactor (Real.sqrt 3))
      widePositionFilter 0).x_ =
      weightedMean
        (UKF.Prediction (MathLib.real fun _ => widePositionFactor (Real.sqrt 3))
          widePositionFilter 0).weights_
        (UKF.Prediction (MathLib.real fun _ => widePositionFactor (Real.sqrt 3))
          widePositionFilter 0).Xsig_pred_ := rfl
  have h0 : (∑ c, weightsOf n_aug_ (-4 : ℝ) c *
      (UKF.Prediction (MathLib.real fun _ => widePositionFactor (Real.sqrt 3))
        widePositionFilter 0).Xsig_pred_ 0 c) = 3 := by
    simp only [fun c => (widePosition_Xsig_pred c).1, weightsOf_filter, sum_sigma_columns]
    simp [Fin.ext_iff, Fin.coe_ofNat_eq_mod, n_aug_]
    norm_num
  have h1 : (∑ c, weightsOf n_aug_ (-4 : ℝ) c *
      (UKF.Prediction (MathLib.real fun _ => widePositionFactor (Real.sqrt 3))
        widePositionFilter 0).Xsig_pred_ 1 c) = 0 := by
    simp only [fun c => (widePosition_Xsig_pred c).2, weightsOf_filter, sum_sigma_columns]
    simp [Fin.ext_iff, Fin.coe_ofNat_eq_mod, n_aug_]
  have h2 : (∑ c, weightsOf n_aug_ (-4 : ℝ) c *
      (UKF.Prediction (MathLib.real fun _ => widePositionFactor (Real.sqrt 3))
        widePositionFilter 0).Xsig_pred_ 2 c) = 0 := by
    simp only [fun c => (widePosition_Xsig_pred_rest c).1, weightsOf_filter, sum_sigma_columns]
    simp [Fin.ext_iff, Fin.coe_ofNat_eq_mod, n_aug_]
  have h3 : (∑ c, weightsOf n_aug_ (-4 : ℝ) c *
      (UKF.Prediction (MathLib.real fun _ => widePositionFactor (Real.sqrt 3))
        widePositionFilter 0).Xsig_pred_ 3 c) = 0 := by
    simp only [fun c => (widePosition_Xsig_pred_rest c).2.1, weightsOf_filter, sum_sigma_columns]
    simp [Fin.ext_iff, Fin.coe_ofNat_eq_mod, n_aug_]
  have h4 : (∑ c, weightsOf n_aug_ (-4 : ℝ) c *
      (UKF.Prediction (MathLib.real fun _ => widePositionFactor (Real.sqrt 3))
        widePositionFilter 0).Xsig_pred_ 4 c) = 0 := by
    simp only [fun c => (widePosition_Xsig_pred_rest c).2.2, weightsOf_filter, sum_sigma_columns]
    simp [Fin.ext_iff, Fin.coe_ofNat_eq_mod, n_aug_]
  rw [h, widePosition_weights]
  funext r
  rw [weightedMean_apply]
  fin_cases r
  · exact h0.trans (by norm_num)
  · exact h1.trans (by norm_num)
  · exact h2.trans (by norm_num)
  · exact h3.trans (by norm_num)
  · exact h4.trans (by norm_num)

/-- The predicted laser measurement after the prediction from
`widePositionFilter`. -/
theorem widePosition_lidar_z_pred :
    weightedMean (weightsOf n_aug_ (-4 : ℝ))
      (lidarZsig
        (UKF.Prediction (MathLib.real fun _ => widePositionFactor (Real.sqrt 3))
          widePositionFilter 0).Xsig_pred_)
      = ![3, 0] := by
  funext r
  rw [weightedMean_apply]
  simp only [lidarZsig_apply]
  fin_cases r
  · show (∑ c, weightsOf n_aug_ (-4 : ℝ) c *
      (UKF.Prediction (MathLib.real fun _ => widePositionFactor (Real.sqrt 3))
        widePositionFilter 0).Xsig_pred_ 0 c) = 3
    simp only [fun c => (widePosition_Xsig_pred c).1, weightsOf_filter, sum_sigma_columns]
    simp [Fin.ext_iff, Fin.coe_ofNat_eq_mod, n_aug_]
    norm_num
  · show (∑ c, weightsOf n_aug_ (-4 : ℝ) c *
      (UKF.Prediction (MathLib.real fun _ => widePositionFactor (Real.sqrt 3))
        widePositionFilter 0).Xsig_pred_ 1 c) = 0
    simp only [fun c => (widePosition_Xsig_pred c).2, weightsOf_filter, sum_sigma_columns]
    simp [Fin.ext_iff, Fin.coe_ofNat_eq_mod, n_aug_]

/-- The innovation covariance of the laser update after the prediction from
`widePositionFilter`: diag(427/1200, 6427/1200). -/
theorem widePosition_lidarS :
    (UKF.Prediction (MathLib.real fun _ => widePositionFactor (Real.sqrt 3))
        widePositionFilter 0).lidarS
      = Matrix.diagonal ![427 / 1200, 6427 / 1200] := by
  rw [lidarS_eq_sum, widePosition_weights, widePosition_lidar_z_pred]
  have hx : (UKF.Prediction (MathLib.real fun _ => widePositionFactor (Real.sqrt 3))
      widePositionFilter 0).std_laspx_ = 0.15 := rfl
  have hy : (UKF.Prediction (MathLib.real fun _ => widePositionFactor (Real.sqrt 3))
      widePositionFilter 0).std_laspy_ = 0.15 := rfl
  rw [hx, hy]
  ext a b
  rw [Matrix.add_apply, Matrix.sum_apply]
  simp only [vecMulVec_apply, Pi.smul_apply, Pi.sub_apply, smul_eq_mul, lidarZsig_apply,
    weightsOf_filter, sum_sigma_columns]
  fin_cases a <;> fin_cases b <;>
    simp [fun c => (widePosition_Xsig_pred c).1, fun c => (widePosition_Xsig_pred c).2,
      Matrix.diagonal, Fin.ext_iff, Fin.coe_ofNat_eq_mod, n_aug_] <;>
    norm_num

/-- Entry (0,0) of the cross correlation of the laser update after the
prediction from `widePositionFilter`. -/
theorem widePosition_lidarTc :
    (UKF.Prediction (MathLib.real fun _ => widePositionFactor (Real.sqrt 3))
        widePositionFilter 0).lidarTc 0 0 = 1 / 3 := by
  rw [lidarTc_eq_sum, widePosition_weights, widePosition_lidar_z_pred, widePosition_x,
    Matrix.sum_apply]
  simp only [vecMulVec_apply, Pi.smul_apply, Pi.sub_apply, smul_eq_mul, lidarZsig_apply,
    weightsOf_filter, sum_sigma_columns]
  simp [fun c => (widePosition_Xsig_pred c).1, Fin.ext_iff, Fin.coe_ofNat_eq_mod, n_aug_]
  norm_num

/-- The range row of the radar projection of the sigma points propagated from
`widePositionFilter` over zero elapsed time: every range is at least 2. -/
theorem widePosition_range (c : Fin (2 * n_aug_ + 1)) :
    radarZsig (MathLib.real fun _ => widePositionFactor (Real.sqrt 3))
      (UKF.Prediction (MathLib.real fun _ => widePositionFactor (Real.sqrt 3))
        widePositionFilter 0).Xsig_pred_ 0 c =
      if c.val = 1 then 4 else if c.val = 2 then 5 else if c.val = 8 then 2
      else if c.val = 9 then 5 else 3 := by
  have hval : radarZsig (MathLib.real fun _ => widePositionFactor (Real.sqrt 3))
      (UKF.Prediction (MathLib.real fun _ => widePositionFactor (Real.sqrt 3))
        widePositionFilter 0).Xsig_pred_ 0 c =
      Real.sqrt
        ((UKF.Prediction (MathLib.real fun _ => widePositionFactor (Real.sqrt 3))
          widePositionFilter 0).Xsig_pred_ 0 c *
         (UKF.Prediction (MathLib.real fun _ => widePositionFactor (Real.sqrt 3))
          widePositionFilter 0).Xsig_pred_ 0 c +
        (UKF.Prediction (MathLib.real fun _ => widePositionFactor (Real.sqrt 3))
          widePositionFilter 0).Xsig_pred_ 1 c *
         (UKF.Prediction (MathLib.real fun _ => widePositionFactor (Real.sqrt 3))
          widePositionFilter 0).Xsig_pred_ 1 c) := by
    rw [radarZsig_apply]
    rfl
  rw [hval, (widePosition_Xsig_pred c).1, (widePosition_Xsig_pred c).2]
  have h2 : Real.sqrt (2 * 2 + 0 * 0) = 2 := by
    rw [show (2 * 2 + 0 * 0 : ℝ) = 2 ^ 2 by norm_num]
    exact Real.sqrt_sq (by norm_num)
  have h3 : Real.sqrt (3 * 3 + 0 * 0) = 3 := by
    rw [show (3 * 3 + 0 * 0 : ℝ) = 3 ^ 2 by norm_num]
    exact Real.sqrt_sq (by norm_num)
  have h4 : Real.sqrt (4 * 4 + 0 * 0) = 4 := by
    rw [show (4 * 4 + 0 * 0 : ℝ) = 4 ^ 2 by norm_num]
    exact Real.sqrt_sq (by norm_num)
  have h5 : Real.sqrt (3 * 3 + 4 * 4) = 5 := by
    rw [show (3 * 3 + 4 * 4 : ℝ) = 5 ^ 2 by norm_num]
    exact Real.sqrt_sq (by norm_num)
  have h5' : Real.sqrt (3 * 3 + -4 * -4) = 5 := by
    rw [show (3 * 3 + -4 * -4 : ℝ) = 5 ^ 2 by norm_num]
    exact Real.sqrt_sq (by norm_num)
  fin_cases c
  · exact h3
  · exact h4
  · exact h5
  · exact h3
  · exact h3
  · exact h3
  · exact h3
  · exact h3
  · exact h2
  · exact h5'
  · exact h3
  · exact h3
  · exact h3
  · exact h3
  · exact h3

/-- The range-rate row of the radar projection of the sigma points propagated
from `widePositionFilter` over zero elapsed time. -/
theorem widePosition_range_rate (c : Fin (2 * n_aug_ + 1)) :
    radarZsig (MathLib.real fun _ => widePositionFactor (Real.sqrt 3))
      (UKF.Prediction (MathLib.real fun _ => widePositionFactor (Real.sqrt 3))
        widePositionFilter 0).Xsig_pred_ 2 c =
      if c.val = 3 then 1 else if c.val = 10 then -1 else 0 := by
  have hval : radarZsig (MathLib.real fun _ => widePositionFactor (Real.sqrt 3))
      (UKF.Prediction (MathLib.real fun _ => widePositionFactor (Real.sqrt 3))
        widePositionFilter 0).Xsig_pred_ 2 c =
      ((UKF.Prediction (MathLib.real fun _ => widePositionFactor (Real.sqrt 3))
          widePositionFilter 0).Xsig_pred_ 0 c *
        (Real.cos ((UKF.Prediction (MathLib.real fun _ => widePositionFactor (Real.sqrt 3))
            widePositionFilter 0).Xsig_pred_ 3 c) *
          (UKF.Prediction (MathLib.real fun _ => widePositionFactor (Real.sqrt 3))
            widePositionFilter 0).Xsig_pred_ 2 c) +
       (UKF.Prediction (MathLib.real fun _ => widePositionFactor (Real.sqrt 3))
          widePositionFilter 0).Xsig_pred_ 1 c *
        (Real.sin ((UKF.Prediction (MathLib.real fun _ => widePositionFactor (Real.sqrt 3))
            widePositionFilter 0).Xsig_pred_ 3 c) *
          (UKF.Prediction (MathLib.real fun _ => widePositionFactor (Real.sqrt 3))
            widePositionFilter 0).Xsig_pred_ 2 c)) /
      radarZsig (MathLib.real fun _ => widePositionFactor (Real.sqrt 3))
        (UKF.Prediction (MathLib.real fun _ => widePositionFactor (Real.sqrt 3))
          widePositionFilter 0).Xsig_pred_ 0 c := by
    rw [radarZsig_apply, radarZsig_apply]
    rfl
  rw [hval, widePosition_range, (widePosition_Xsig_pred c).1, (widePosition_Xsig_pred c).2,
    (widePosition_Xsig_pred_rest c).1, (widePosition_Xsig_pred_rest c).2.1]
  fin_cases c <;> simp [Fin.coe_ofNat_eq_mod, n_aug_]

/-- The predicted radar measurement after the prediction from
`widePositionFilter`: range 11/3, bearing 0, range rate 0. -/
theorem widePosition_radar_z_pred :
    weightedMean (weightsOf n_aug_ (-4 : ℝ))
      (radarZsig (MathLib.real fun _ => widePositionFactor (Real.sqrt 3))
        (UKF.Prediction (MathLib.real fun _ => widePositionFactor (Real.sqrt 3))
          widePositionFilter 0).Xsig_pred_)
      = fun r => if r.val = 0 then 11 / 3 else 0 := by
  funext r
  rw [weightedMean_apply]
  fin_cases r
  · show (∑ c, weightsOf n_aug_ (-4 : ℝ) c *
      radarZsig (MathLib.real fun _ => widePositionFactor (Real.sqrt 3))
        (UKF.Prediction (MathLib.real fun _ => widePositionFactor (Real.sqrt 3))
          widePositionFilter 0).Xsig_pred_ 0 c) = _
    simp only [widePosition_range, weightsOf_filter, sum_sigma_columns]
    simp [Fin.ext_iff, Fin.coe_ofNat_eq_mod, n_aug_]
    norm_num
  · show (∑ c, weightsOf n_aug_ (-4 : ℝ) c *
      radarZsig (MathLib.real fun _ => widePositionFactor (Real.sqrt 3))
        (UKF.Prediction (MathLib.real fun _ => widePositionFactor (Real.sqrt 3))
          widePositionFilter 0).Xsig_pred_ 1 c) = _
    simp only [widePosition_bearing, weightsOf_filter, sum_sigma_columns]
    simp [Fin.ext_iff, Fin.coe_ofNat_eq_mod, n_aug_]
  · show (∑ c, weightsOf n_aug_ (-4 : ℝ) c *
      radarZsig (MathLib.real fun _ => widePositionFactor (Real.sqrt 3))
        (UKF.Prediction (MathLib.real fun _ => widePositionFactor (Real.sqrt 3))
          widePositionFilter 0).Xsig_pred_ 2 c) = _
    simp only [widePosition_range_rate, weightsOf_filter, sum_sigma_columns]
    simp [Fin.ext_iff, Fin.coe_ofNat_eq_mod, n_aug_]

/-- The innovation covariance of the radar update after the prediction from
`widePositionFilter`: diag(1181/900, arg(3+4i)²/3 + 9/10000, 127/300). -/
theorem widePosition_radarS :
    (UKF.Prediction (MathLib.real fun _ => widePositionFactor (Real.sqrt 3))
        widePositionFilter 0).radarS (MathLib.real fun _ => widePositionFactor (Real.sqrt 3))
      = Matrix.diagonal
          ![1181 / 900, Complex.arg (3 + 4 * Complex.I) ^ 2 / 3 + 9 / 10000, 127 / 300] := by
  have hα := arg_three_four
  have hn0 : normalizeAngle (MathLib.real fun _ => widePositionFactor (Real.sqrt 3)) 0 = 0 :=
    normalizeAngle_of_mem _ 0 ⟨by linarith [Real.pi_pos], Real.pi_pos.le⟩
  have hnα : normalizeAngle (MathLib.real fun _ => widePositionFactor (Real.sqrt 3))
      (Complex.arg (3 + 4 * Complex.I)) = Complex.arg (3 + 4 * Complex.I) :=
    normalizeAngle_of_mem _ _ (Complex.arg_mem_Ioc _)
  have hnα' : normalizeAngle (MathLib.real fun _ => widePositionFactor (Real.sqrt 3))
      (-Complex.arg (3 + 4 * Complex.I)) = -Complex.arg (3 + 4 * Complex.I) :=
    normalizeAngle_of_mem _ _ ⟨by linarith [hα.2.1], by linarith [hα.1, Real.pi_pos]⟩
  rw [radarS_eq_sum, widePosition_weights, widePosition_radar_z_pred]
  have hr : (UKF.Prediction (MathLib.real fun _ => widePositionFactor (Real.sqrt 3))
      widePositionFilter 0).std_radr_ = 0.3 := rfl
  have hp : (UKF.Prediction (MathLib.real fun _ => widePositionFactor (Real.sqrt 3))
      widePositionFilter 0).std_radphi_ = 0.03 := rfl
  have hd : (UKF.Prediction (MathLib.real fun _ => widePositionFactor (Real.sqrt 3))
      widePositionFilter 0).std_radrd_ = 0.3 := rfl
  rw [hr, hp, hd]
  ext a b
  rw [Matrix.add_apply, Matrix.sum_apply]
  simp only [vecMulVec_apply, Pi.smul_apply, smul_eq_mul, weightsOf_filter, sum_sigma_columns]
  fin_cases a <;> fin_cases b <;>
    simp [radarZdiff, Function.update_apply, widePosition_range, widePosition_bearing,
      widePosition_range_rate, Matrix.diagonal, Matrix.vecHead, Matrix.vecTail, Fin.ext_iff,
      Fin.coe_ofNat_eq_mod, n_aug_, hn0, hnα, hnα'] <;>
    ring_nf

/-- Entry (0,0) of the cross correlation of the radar update after the
prediction from `widePositionFilter`. -/
theorem widePosition_radarTc :
    (UKF.Prediction (MathLib.real fun _ => widePositionFactor (Real.sqrt 3))
        widePositionFilter 0).radarTc (MathLib.real fun _ => widePositionFactor (Real.sqrt 3))
      0 0 = 1 / 3 := by
  rw [radarTc_eq_sum, Matrix.sum_apply, widePosition_weights, widePosition_radar_z_pred,
    widePosition_x]
  simp only [vecMulVec_apply, Pi.smul_apply, smul_eq_mul, radarXdiff, radarZdiff,
    Function.update_noteq (show (0 : Fin n_x_) ≠ 1 by decide),
    Function.update_noteq (show (0 : Fin 3) ≠ 1 by decide), Pi.sub_apply,
    widePosition_range, fun c => (widePosition_Xsig_pred c).1, weightsOf_filter,
    sum_sigma_columns]
  simp [Fin.ext_iff, Fin.coe_ofNat_eq_mod, n_aug_]
  norm_num

/-- The inverse of a diagonal matrix with nonzero diagonal entries. -/
theorem inverse_diagonal {n : Nat} (d : Fin n → ℝ) (h : ∀ i, d i ≠ 0) :
    inverse (Matrix.diagonal d) = Matrix.diagonal fun i => (d i)⁻¹ := by
  rw [inverse_eq_inv]
  apply Matrix.inv_eq_right_inv
  rw [Matrix.diagonal_mul_diagonal]
  have : (fun i => d i * (d i)⁻¹) = fun _ => (1 : ℝ) := by
    funext i
    exact mul_inv_cancel₀ (h i)
  rw [this, Matrix.diagonal_one]

/-- A diagonal matrix with positive diagonal entries is positive definite and
has a nonzero determinant. -/
theorem diagonal_posDef {n : Nat} (d : Fin n → ℝ) (h : ∀ i, 0 < d i) :
    (Matrix.diagonal d).PosDef ∧ (Matrix.diagonal d).det ≠ 0 :=
  ⟨Matrix.PosDef.diagonal h, by
    rw [Matrix.det_diagonal]
    exact (Finset.prod_pos fun i _ => h i).ne'⟩

/-- The diagonal of the laser innovation covariance after the prediction from
`widePositionFilter` is positive. -/
theorem widePosition_lidar_diag_pos (i : Fin 2) :
    0 < (![427 / 1200, 6427 / 1200] : Fin 2 → ℝ) i := by
  fin_cases i
  · show (0 : ℝ) < 427 / 1200
    norm_num
  · show (0 : ℝ) < 6427 / 1200
    norm_num

/-- The diagonal of the radar innovation covariance after the prediction from
`widePositionFilter` is positive. -/
theorem widePosition_radar_diag_pos (i : Fin 3) :
    0 < (![1181 / 900, Complex.arg (3 + 4 * Complex.I) ^ 2 / 3 + 9 / 10000, 127 / 300] :
      Fin 3 → ℝ) i := by
  fin_cases i
  · show (0 : ℝ) < 1181 / 900
    norm_num
  · show (0 : ℝ) < Complex.arg (3 + 4 * Complex.I) ^ 2 / 3 + 9 / 10000
    positivity
  · show (0 : ℝ) < 127 / 300
    norm_num

/-- Every sigma column propagated from `widePositionFilter` has a nonzero range. -/
theorem widePosition_range_ne_zero (c : Fin (2 * n_aug_ + 1)) :
    radarZsig (MathLib.real fun _ => widePositionFactor (Real.sqrt 3))
      (UKF.Prediction (MathLib.real fun _ => widePositionFactor (Real.sqrt 3))
        widePositionFilter 0).Xsig_pred_ 0 c ≠ 0 := by
  rw [widePosition_range]
  split_ifs <;> norm_num

/-- After the prediction from `widePositionFilter` entry (0,0) of the laser gain
`K = Tc * S⁻¹` is 400/427 and entry (0,0) of the radar gain is 300/1181. -/
theorem widePosition_gain :
    ((UKF.Prediction (MathLib.real fun _ => widePositionFactor (Real.sqrt 3))
          widePositionFilter 0).lidarTc *
        inverse (UKF.Prediction (MathLib.real fun _ => widePositionFactor (Real.sqrt 3))
          widePositionFilter 0).lidarS) 0 0 = 400 / 427 ∧
    ((UKF.Prediction (MathLib.real fun _ => widePositionFactor (Real.sqrt 3))
          widePositionFilter 0).radarTc
          (MathLib.real fun _ => widePositionFactor (Real.sqrt 3)) *
        inverse ((UKF.Prediction (MathLib.real fun _ => widePositionFactor (Real.sqrt 3))
          widePositionFilter 0).radarS
          (MathLib.real fun _ => widePositionFactor (Real.sqrt 3)))) 0 0 = 300 / 1181 := by
  constructor
  · rw [widePosition_lidarS, inverse_diagonal _ fun i => (widePosition_lidar_diag_pos i).ne',
      Matrix.mul_apply, Fin.sum_univ_two, widePosition_lidarTc]
    simp [Matrix.diagonal]
    norm_num
  · rw [widePosition_radarS, inverse_diagonal _ fun i => (widePosition_radar_diag_pos i).ne',
      Matrix.mul_apply, Fin.sum_univ_three, widePosition_radarTc]
    simp [Matrix.diagonal]
    norm_num

/-! ## Symmetry, score and trace under the updates -/

/-- For a positive definite `S` and a gain `K` with a nonzero entry the
correction `K S Kᵀ` has a positive trace, so subtracting it lowers the trace. -/
theorem trace_sub_gain_lt {n k : Nat} (P : Matrix (Fin n) (Fin n) ℝ)
    (K : Matrix (Fin n) (Fin k) ℝ) (S : Matrix (Fin k) (Fin k) ℝ) (hS : S.PosDef)
    (i : Fin n) (j : Fin k) (hK : K i j ≠ 0) :
    Matrix.trace (P - K * S * Kᵀ) < Matrix.trace P := by
  have hrow : ∀ r, (K * S * Kᵀ) r r = Matrix.dotProduct (star (K r)) (S.mulVec (K r)) := by
    intro r
    simp only [Matrix.mul_apply, Matrix.transpose_apply, Matrix.dotProduct, Matrix.mulVec,
      star_trivial, Finset.sum_mul, Finset.mul_sum]
    rw [Finset.sum_comm]
    exact Finset.sum_congr rfl fun a _ => Finset.sum_congr rfl fun b _ => by ring
  have hpos : 0 < Matrix.trace (K * S * Kᵀ) := by
    unfold Matrix.trace
    refine Finset.sum_pos' (fun r _ => ?_) ⟨i, Finset.mem_univ i, ?_⟩
    · rw [Matrix.diag_apply, hrow]
      exact hS.posSemidef.2 (K r)
    · rw [Matrix.diag_apply, hrow]
      exact hS.2 (K i) fun h => hK (congrFun h j)
  rw [Matrix.trace_sub]
  linarith

/-- C6: symmetry of the state covariance is an invariant in exact arithmetic:
the covariance set at first-measurement initialization is symmetric, the
covariance computed by Prediction is symmetric for every set of propagated
sigma points (and for every prior mean, prior covariance and elapsed time), and
UpdateLidar and UpdateRadar turn a symmetric covariance into a symmetric one
wherever their arithmetic is defined: the innovation covariance S is invertible
and, for the radar, every sigma column has a nonzero range. -/
theorem C6_covariance_symmetric {R : Type} [LinearOrderedField R] (L : MathLib R) :
    (∀ (f : UKF R) (m : MeasurementPackage R), f.is_initialized_ = false →
      (UKF.ProcessMeasurement L f m).P_.IsSymm) ∧
    (∀ (w : Fin (2 * n_aug_ + 1) → R) (Xsig_pred : Matrix (Fin n_x_) (Fin (2 * n_aug_ + 1)) R)
      (x : Fin n_x_ → R), (predictedCovariance L w Xsig_pred x).IsSymm) ∧
    (∀ (f : UKF R) (delta_t : R), (UKF.Prediction L f delta_t).P_.IsSymm) ∧
    (∀ (f : UKF R) (m : MeasurementPackage R), f.P_.IsSymm → f.lidarS.det ≠ 0 →
      (UKF.UpdateLidar L f m).P_.IsSymm) ∧
    (∀ (f : UKF R) (m : MeasurementPackage R), f.P_.IsSymm →
      (∀ i, radarZsig L f.Xsig_pred_ 0 i ≠ 0) → (f.radarS L).det ≠ 0 →
      (UKF.UpdateRadar L f m).P_.IsSymm) := by
  refine ⟨ProcessMeasurement_first_P_isSymm L, ?_, Prediction_P_isSymm L,
    fun f m hP _ => UpdateLidar_P_isSymm L f m hP,
    fun f m hP _ _ => UpdateRadar_P_isSymm L f m hP⟩
  intro w X x
  rw [predictedCovariance_eq_sum]
  exact isSymm_sum_outer _ _

/-- Witness of C6: the state that Prediction leaves for `widePositionFilter`
(position (3, 0), sigma columns at ranges 2 to 5).  Its covariance is symmetric,
the laser innovation covariance is diag(427/1200, 6427/1200), the radar one is
diag(1181/900, arg(3+4i)²/3 + 9/10000, 127/300), both gains have a nonzero
entry (0,0), and both updates leave a symmetric covariance. -/
theorem C6_covariance_symmetric_witness :
    (UKF.Prediction (MathLib.real fun _ => widePositionFactor (Real.sqrt 3))
        widePositionFilter 0).P_.IsSymm ∧
    (UKF.Prediction (MathLib.real fun _ => widePositionFactor (Real.sqrt 3))
        widePositionFilter 0).lidarS.det ≠ 0 ∧
    ((UKF.Prediction (MathLib.real fun _ => widePositionFactor (Real.sqrt 3))
          widePositionFilter 0).lidarTc *
        inverse (UKF.Prediction (MathLib.real fun _ => widePositionFactor (Real.sqrt 3))
          widePositionFilter 0).lidarS) 0 0 = 400 / 427 ∧
    (UKF.UpdateLidar (MathLib.real fun _ => widePositionFactor (Real.sqrt 3))
        (UKF.Prediction (MathLib.real fun _ => widePositionFactor (Real.sqrt 3))
          widePositionFilter 0)
        (laserMeasurement 0 1 2)).P_.IsSymm ∧
    (∀ i, radarZsig (MathLib.real fun _ => widePositionFactor (Real.sqrt 3))
        (UKF.Prediction (MathLib.real fun _ => widePositionFactor (Real.sqrt 3))
          widePositionFilter 0).Xsig_pred_ 0 i ≠ 0) ∧
    ((UKF.Prediction (MathLib.real fun _ => widePositionFactor (Real.sqrt 3))
        widePositionFilter 0).radarS
        (MathLib.real fun _ => widePositionFactor (Real.sqrt 3))).det ≠ 0 ∧
    ((UKF.Prediction (MathLib.real fun _ => widePositionFactor (Real.sqrt 3))
          widePositionFilter 0).radarTc
          (MathLib.real fun _ => widePositionFactor (Real.sqrt 3)) *
        inverse ((UKF.Prediction (MathLib.real fun _ => widePositionFactor (Real.sqrt 3))
          widePositionFilter 0).radarS
          (MathLib.real fun _ => widePositionFactor (Real.sqrt 3)))) 0 0 = 300 / 1181 ∧
    (UKF.UpdateRadar (MathLib.real fun _ => widePositionFactor (Real.sqrt 3))
        (UKF.Prediction (MathLib.real fun _ => widePositionFactor (Real.sqrt 3))
          widePositionFilter 0)
        (radarMeasurement 0 4 0 1)).P_.IsSymm := by
  have hP := Prediction_P_isSymm (MathLib.real fun _ => widePositionFactor (Real.sqrt 3))
    widePositionFilter 0
  have hl : (UKF.Prediction (MathLib.real fun _ => widePositionFactor (Real.sqrt 3))
      widePositionFilter 0).lidarS.det ≠ 0 := by
    rw [widePosition_lidarS]
    exact (diagonal_posDef _ widePosition_lidar_diag_pos).2
  have hr : ((UKF.Prediction (MathLib.real fun _ => widePositionFactor (Real.sqrt 3))
      widePositionFilter 0).radarS
      (MathLib.real fun _ => widePositionFactor (Real.sqrt 3))).det ≠ 0 := by
    rw [widePosition_radarS]
    exact (diagonal_posDef _ widePosition_radar_diag_pos).2
  exact ⟨hP, hl, widePosition_gain.1,
    (C6_covariance_symmetric (MathLib.real fun _ => widePositionFactor (Real.sqrt 3))).2.2.2.1
      _ (laserMeasurement 0 1 2) hP hl,
    widePosition_range_ne_zero, hr, widePosition_gain.2,
    (C6_covariance_symmetric (MathLib.real fun _ => widePositionFactor (Real.sqrt 3))).2.2.2.2
      _ (radarMeasurement 0 4 0 1) hP widePosition_range_ne_zero hr⟩

/-- C10: for UpdateLidar and for UpdateRadar, for every measurement and every
filter state (propagated sigma points, weights, mean) whose innovation
covariance S is positive definite, the stored score
NIS_score = y^T * S^-1 * y is nonnegative.  For the radar every sigma column
has a nonzero range: a column at range zero leaves the code without a number
for S, so such a state is outside the states with a positive definite S. -/
theorem C10_nis_nonneg (L : MathLib ℝ) :
    (∀ (f : UKF ℝ) (m : MeasurementPackage ℝ), f.lidarS.PosDef →
      0 ≤ (UKF.UpdateLidar L f m).NIS_score) ∧
    (∀ (f : UKF ℝ) (m : MeasurementPackage ℝ), (∀ i, radarZsig L f.Xsig_pred_ 0 i ≠ 0) →
      (f.radarS L).PosDef → 0 ≤ (UKF.UpdateRadar L f m).NIS_score) :=
  ⟨fun f m hS => nis_nonneg _ hS (f.lidarY m),
   fun f m _ hS => nis_nonneg _ hS (f.radarY L m)⟩

/-- Witness of C10: the state that Prediction leaves for `widePositionFilter`
(position (3, 0), sigma columns at ranges 2 to 5).  The laser innovation
covariance diag(427/1200, 6427/1200) and the radar innovation covariance
diag(1181/900, arg(3+4i)²/3 + 9/10000, 127/300) are positive definite, and the
scores for the laser measurement (1, 2) and the radar measurement (4, 0, 1) are
nonnegative. -/
theorem C10_nis_nonneg_witness :
    (UKF.Prediction (MathLib.real fun _ => widePositionFactor (Real.sqrt 3))
        widePositionFilter 0).lidarS.PosDef ∧
    0 ≤ (UKF.UpdateLidar (MathLib.real fun _ => widePositionFactor (Real.sqrt 3))
        (UKF.Prediction (MathLib.real fun _ => widePositionFactor (Real.sqrt 3))
          widePositionFilter 0)
        (laserMeasurement 0 1 2)).NIS_score ∧
    (∀ i, radarZsig (MathLib.real fun _ => widePositionFactor (Real.sqrt 3))
        (UKF.Prediction (MathLib.real fun _ => widePositionFactor (Real.sqrt 3))
          widePositionFilter 0).Xsig_pred_ 0 i ≠ 0) ∧
    ((UKF.Prediction (MathLib.real fun _ => widePositionFactor (Real.sqrt 3))
        widePositionFilter 0).radarS
        (MathLib.real fun _ => widePositionFactor (Real.sqrt 3))).PosDef ∧
    0 ≤ (UKF.UpdateRadar (MathLib.real fun _ => widePositionFactor (Real.sqrt 3))
        (UKF.Prediction (MathLib.real fun _ => widePositionFactor (Real.sqrt 3))
          widePositionFilter 0)
        (radarMeasurement 0 4 0 1)).NIS_score := by
  have hl : (UKF.Prediction (MathLib.real fun _ => widePositionFactor (Real.sqrt 3))
      widePositionFilter 0).lidarS.PosDef := by
    rw [widePosition_lidarS]
    exact (diagonal_posDef _ widePosition_lidar_diag_pos).1
  have hr : ((UKF.Prediction (MathLib.real fun _ => widePositionFactor (Real.sqrt 3))
      widePositionFilter 0).radarS
      (MathLib.real fun _ => widePositionFactor (Real.sqrt 3))).PosDef := by
    rw [widePosition_radarS]
    exact (diagonal_posDef _ widePosition_radar_diag_pos).1
  exact ⟨hl,
    (C10_nis_nonneg (MathLib.real fun _ => widePositionFactor (Real.sqrt 3))).1
      _ (laserMeasurement 0 1 2) hl,
    widePosition_range_ne_zero, hr,
    (C10_nis_nonneg (MathLib.real fun _ => widePositionFactor (Real.sqrt 3))).2
      _ (radarMeasurement 0 4 0 1) widePosition_range_ne_zero hr⟩

/-- C11, amended: for UpdateLidar and for UpdateRadar, for every state and
measurement for which the innovation covariance S is positive definite (and,
for the radar, every sigma column has a nonzero range, without which the code
has no number for S), the trace of the covariance after the update,
P - K*S*K^T with K = Tc*S^-1, is at most the trace of the covariance P before
the update. -/
theorem C11_update_reduces_trace (L : MathLib ℝ) :
    (∀ (f : UKF ℝ) (m : MeasurementPackage ℝ), f.lidarS.PosDef →
      Matrix.trace (UKF.UpdateLidar L f m).P_ ≤ Matrix.trace f.P_) ∧
    (∀ (f : UKF ℝ) (m : MeasurementPackage ℝ), (∀ i, radarZsig L f.Xsig_pred_ 0 i ≠ 0) →
      (f.radarS L).PosDef →
      Matrix.trace (UKF.UpdateRadar L f m).P_ ≤ Matrix.trace f.P_) :=
  ⟨fun f _ hS => trace_sub_gain_le f.P_ (f.lidarTc * inverse f.lidarS) f.lidarS hS.posSemidef,
   fun f _ _ hS =>
    trace_sub_gain_le f.P_ (f.radarTc L * inverse (f.radarS L)) (f.radarS L) hS.posSemidef⟩

/-- Witness of C11, amended: the state that Prediction leaves for
`widePositionFilter` (position (3, 0), sigma columns at ranges 2 to 5).  Both
innovation covariances are positive definite, both gains have a nonzero entry
(0,0), and each update lowers the trace of the covariance strictly. -/
theorem C11_update_reduces_trace_witness :
    ((UKF.Prediction (MathLib.real fun _ => widePositionFactor (Real.sqrt 3))
        widePositionFilter 0).lidarS.PosDef ∧
      Matrix.trace
        (UKF.UpdateLidar (MathLib.real fun _ => widePositionFactor (Real.sqrt 3))
          (UKF.Prediction (MathLib.real fun _ => widePositionFactor (Real.sqrt 3))
            widePositionFilter 0)
          (laserMeasurement 0 1 2)).P_ ≤
        Matrix.trace (UKF.Prediction (MathLib.real fun _ => widePositionFactor (Real.sqrt 3))
          widePositionFilter 0).P_ ∧
      Matrix.trace
        (UKF.UpdateLidar (MathLib.real fun _ => widePositionFactor (Real.sqrt 3))
          (UKF.Prediction (MathLib.real fun _ => widePositionFactor (Real.sqrt 3))
            widePositionFilter 0)
          (laserMeasurement 0 1 2)).P_ <
        Matrix.trace (UKF.Prediction (MathLib.real fun _ => widePositionFactor (Real.sqrt 3))
          widePositionFilter 0).P_) ∧
    ((∀ i, radarZsig (MathLib.real fun _ => widePositionFactor (Real.sqrt 3))
        (UKF.Prediction (MathLib.real fun _ => widePositionFactor (Real.sqrt 3))
          widePositionFilter 0).Xsig_pred_ 0 i ≠ 0) ∧
      ((UKF.Prediction (MathLib.real fun _ => widePositionFactor (Real.sqrt 3))
        widePositionFilter 0).radarS
        (MathLib.real fun _ => widePositionFactor (Real.sqrt 3))).PosDef ∧
      Matrix.trace
        (UKF.UpdateRadar (MathLib.real fun _ => widePositionFactor (Real.sqrt 3))
          (UKF.Prediction (MathLib.real fun _ => widePositionFactor (Real.sqrt 3))
            widePositionFilter 0)
          (radarMeasurement 0 4 0 1)).P_ ≤
        Matrix.trace (UKF.Prediction (MathLib.real fun _ => widePositionFactor (Real.sqrt 3))
          widePositionFilter 0).P_ ∧
      Matrix.trace
        (UKF.UpdateRadar (MathLib.real fun _ => widePositionFactor (Real.sqrt 3))
          (UKF.Prediction (MathLib.real fun _ => widePositionFactor (Real.sqrt 3))
            widePositionFilter 0)
          (radarMeasurement 0 4 0 1)).P_ <
        Matrix.trace (UKF.Prediction (MathLib.real fun _ => widePositionFactor (Real.sqrt 3))
          widePositionFilter 0).P_) := by
  have hl : (UKF.Prediction (MathLib.real fun _ => widePositionFactor (Real.sqrt 3))
      widePositionFilter 0).lidarS.PosDef := by
    rw [widePosition_lidarS]
    exact (diagonal_posDef _ widePosition_lidar_diag_pos).1
  have hr : ((UKF.Prediction (MathLib.real fun _ => widePositionFactor (Real.sqrt 3))
      widePositionFilter 0).radarS
      (MathLib.real fun _ => widePositionFactor (Real.sqrt 3))).PosDef := by
    rw [widePosition_radarS]
    exact (diagonal_posDef _ widePosition_radar_diag_pos).1
  refine ⟨⟨hl,
    (C11_update_reduces_trace (MathLib.real fun _ => widePositionFactor (Real.sqrt 3))).1
      _ (laserMeasurement 0 1 2) hl, ?_⟩,
    ⟨widePosition_range_ne_zero, hr,
    (C11_update_reduces_trace (MathLib.real fun _ => widePositionFactor (Real.sqrt 3))).2
      _ (radarMeasurement 0 4 0 1) widePosition_range_ne_zero hr, ?_⟩⟩
  · refine trace_sub_gain_lt _ _ _ hl 0 0 ?_
    rw [widePosition_gain.1]
    norm_num
  · refine trace_sub_gain_lt _ _ _ hr 0 0 ?_
    rw [widePosition_gain.2]
    norm_num

/-! ## An update that raises the trace -/

/-- The augmented mean of `correlatedHeadingFilter`: speed 1, everything else 0. -/
theorem correlatedHeading_x_aug {R : Type} [LinearOrderedField R] (pi : R) :
    (correlatedHeadingFilter pi).x_aug = fun i => if i.val = 2 then 1 else 0 := by
  ext i
  fin_cases i <;> rfl

/-- The augmented covariance of `correlatedHeadingFilter`, entry by entry. -/
theorem correlatedHeading_P_aug {R : Type} [LinearOrderedField R] (pi : R) :
    (correlatedHeadingFilter pi).P_aug = fun i j =>
      if i = j then
        (if i.val = 1 then 3 / 400 else if i.val < 3 then 1 / 3
          else if i.val = 3 then 4 * pi ^ 2 / 3
          else if i.val = 4 then 1 / 12000000 else 0.5 * 0.5)
      else if (i.val = 3 ∧ j.val = 1) ∨ (j.val = 3 ∧ i.val = 1) then pi / 20
      else if (i.val = 3 ∧ j.val < 3) ∨ (j.val = 3 ∧ i.val < 3) then pi / 3
      else 0 := by
  ext i j
  fin_cases i <;> fin_cases j <;> rfl

/-- `correlatedHeadingFactor π √3` is the Cholesky factor of the augmented
covariance of `correlatedHeadingFilter π`: lower triangular, positive diagonal,
`L Lᵀ = P_aug`. -/
theorem correlatedHeadingFactor_cholesky :
    correlatedHeadingFactor Real.pi (Real.sqrt 3)
        * (correlatedHeadingFactor Real.pi (Real.sqrt 3))ᵀ
        = (correlatedHeadingFilter Real.pi).P_aug ∧
      (∀ i j, i < j → correlatedHeadingFactor Real.pi (Real.sqrt 3) i j = 0) ∧
      (∀ i, 0 < correlatedHeadingFactor Real.pi (Real.sqrt 3) i i) := by
  have hs : Real.sqrt 3 * Real.sqrt 3 = 3 := Real.mul_self_sqrt (by norm_num)
  have hsp : 0 < Real.sqrt 3 := Real.sqrt_pos.mpr (by norm_num)
  have hs0 : Real.sqrt 3 ≠ 0 := hsp.ne'
  refine ⟨?_, ?_, ?_⟩
  · rw [correlatedHeading_P_aug]
    ext i j
    fin_cases i <;> fin_cases j <;>
      simp [correlatedHeadingFactor, Matrix.mul_apply, Fin.sum_univ_succ, Fin.ext_iff] <;>
      (try field_simp) <;>
      (try first | nlinarith [hs] | linear_combination (-20 * Real.pi) * hs)
  · intro i j hij
    have h1 : i ≠ j := ne_of_lt hij
    have h2 : ¬ (i.val = 3 ∧ j.val < 3) := by
      intro h
      have : i.val < j.val := hij
      omega
    simp [correlatedHeadingFactor, h1, h2]
  · intro i
    simp only [correlatedHeadingFactor, if_true]
    split_ifs
    · positivity
    · positivity
    · exact div_pos Real.pi_pos hsp
    · positivity
    · norm_num

/-- The sigma points that Prediction propagates from `correlatedHeadingFilter`
over one second, row by row (`px`, `py`, speed, heading, yaw rate). -/
theorem correlatedHeading_Xsig_pred (c : Fin (2 * n_aug_ + 1)) :
    (UKF.Prediction (MathLib.real fun _ => correlatedHeadingFactor Real.pi (Real.sqrt 3))
        (correlatedHeadingFilter Real.pi) 1).Xsig_pred_ 0 c =
      (if c.val = 1 ∨ c.val = 10 then 0
        else if c.val = 2 ∨ c.val = 4 ∨ c.val = 9 ∨ c.val = 11 then -1
        else if c.val = 3 ∨ c.val = 8 then -2
        else if c.val = 6 then 1 + Real.sqrt 3 / 4
        else if c.val = 13 then 1 - Real.sqrt 3 / 4 else 1) ∧
    (UKF.Prediction (MathLib.real fun _ => correlatedHeadingFactor Real.pi (Real.sqrt 3))
        (correlatedHeadingFilter Real.pi) 1).Xsig_pred_ 1 c =
      (if c.val = 2 then 3 / 20 else if c.val = 9 then -(3 / 20) else 0) ∧
    (UKF.Prediction (MathLib.real fun _ => correlatedHeadingFactor Real.pi (Real.sqrt 3))
        (correlatedHeadingFilter Real.pi) 1).Xsig_pred_ 2 c =
      (if c.val = 3 then 2 else if c.val = 10 then 0
        else if c.val = 6 then 1 + Real.sqrt 3 / 2
        else if c.val = 13 then 1 - Real.sqrt 3 / 2 else 1) ∧
    (UKF.Prediction (MathLib.real fun _ => correlatedHeadingFactor Real.pi (Real.sqrt 3))
        (correlatedHeadingFilter Real.pi) 1).Xsig_pred_ 3 c =
      (if c.val = 1 ∨ c.val = 2 ∨ c.val = 3 ∨ c.val = 4 then Real.pi
        else if c.val = 8 ∨ c.val = 9 ∨ c.val = 10 ∨ c.val = 11 then -Real.pi
        else if c.val = 5 then 1 / 2000 else if c.val = 12 then -(1 / 2000)
        else if c.val = 7 then Real.sqrt 3 / 4
        else if c.val = 14 then -(Real.sqrt 3 / 4) else 0) ∧
    (UKF.Prediction (MathLib.real fun _ => correlatedHeadingFactor Real.pi (Real.sqrt 3))
        (correlatedHeadingFilter Real.pi) 1).Xsig_pred_ 4 c =
      (if c.val = 5 then 1 / 2000 else if c.val = 12 then -(1 / 2000)
        else if c.val = 7 then Real.sqrt 3 / 2
        else if c.val = 14 then -(Real.sqrt 3 / 2) else 0) := by
  have hlam : (correlatedHeadingFilter Real.pi).lambda_ + ((n_aug_ : ℕ) : ℝ) = 3 := by
    simp [correlatedHeadingFilter, UKF.new]; norm_num
  have hs0 : Real.sqrt 3 ≠ 0 := (Real.sqrt_pos.mpr (by norm_num)).ne'
  have hsp : Real.sqrt 3 * (Real.pi / Real.sqrt 3) = Real.pi := by field_simp
  have hs1 : Real.sqrt 3 * (Real.sqrt 3)⁻¹ = 1 := by field_simp
  have hsb : Real.sqrt 3 * (3 / 20 / Real.sqrt 3) = 3 / 20 := by field_simp; ring
  have hse : Real.sqrt 3 * (1 / 2000 / Real.sqrt 3) = 1 / 2000 := by field_simp; ring
  have h0 : ¬ (0.001 : ℝ) < 0 := by norm_num
  have hse' : Real.sqrt 3 * (2000⁻¹ / Real.sqrt 3) = 2000⁻¹ := by field_simp; ring
  have he : ¬ (0.001 : ℝ) < |(2000 : ℝ)⁻¹| := by norm_num [abs_of_pos]
  simp only [UKF.Prediction, predictSigmaPoints_apply, predictSigmaPoint,
    augmentedSigmaPoints_apply, hlam, correlatedHeading_x_aug]
  fin_cases c <;>
    simp [MathLib.real, correlatedHeadingFactor, Fin.ext_iff, Fin.coe_ofNat_eq_mod, n_aug_,
      hsp, hs1, hsb, hse, hse', h0, he, ctrvTurn, ctrvStraight] <;>
    (try norm_num) <;> (try (constructor <;> ring))

/-- The weights that Prediction stores for `correlatedHeadingFilter`. -/
theorem correlatedHeading_weights :
    (UKF.Prediction (MathLib.real fun _ => correlatedHeadingFactor Real.pi (Real.sqrt 3))
        (correlatedHeadingFilter Real.pi) 1).weights_ = weightsOf n_aug_ (-4 : ℝ) := by
  have hl : (correlatedHeadingFilter Real.pi).lambda_ = -4 := by
    simp [correlatedHeadingFilter, UKF.new]
  simp only [UKF.Prediction, hl]

/-- The weighted means of the five rows of the sigma points propagated from
`correlatedHeadingFilter` over one second. -/
theorem correlatedHeading_row_means :
    (∑ c, weightsOf n_aug_ (-4 : ℝ) c *
      (UKF.Prediction (MathLib.real fun _ => correlatedHeadingFactor Real.pi (Real.sqrt 3))
        (correlatedHeadingFilter Real.pi) 1).Xsig_pred_ 0 c) = -5 / 3 ∧
    (∑ c, weightsOf n_aug_ (-4 : ℝ) c *
      (UKF.Prediction (MathLib.real fun _ => correlatedHeadingFactor Real.pi (Real.sqrt 3))
        (correlatedHeadingFilter Real.pi) 1).Xsig_pred_ 1 c) = 0 ∧
    (∑ c, weightsOf n_aug_ (-4 : ℝ) c *
      (UKF.Prediction (MathLib.real fun _ => correlatedHeadingFactor Real.pi (Real.sqrt 3))
        (correlatedHeadingFilter Real.pi) 1).Xsig_pred_ 2 c) = 1 ∧
    (∑ c, weightsOf n_aug_ (-4 : ℝ) c *
      (UKF.Prediction (MathLib.real fun _ => correlatedHeadingFactor Real.pi (Real.sqrt 3))
        (correlatedHeadingFilter Real.pi) 1).Xsig_pred_ 3 c) = 0 ∧
    (∑ c, weightsOf n_aug_ (-4 : ℝ) c *
      (UKF.Prediction (MathLib.real fun _ => correlatedHeadingFactor Real.pi (Real.sqrt 3))
        (correlatedHeadingFilter Real.pi) 1).Xsig_pred_ 4 c) = 0 := by
  refine ⟨?_, ?_, ?_, ?_, ?_⟩
  · simp only [fun c => (correlatedHeading_Xsig_pred c).1, weightsOf_filter, sum_sigma_columns]
    simp [Fin.ext_iff, Fin.coe_ofNat_eq_mod, n_aug_]
    ring
  · simp only [fun c => (correlatedHeading_Xsig_pred c).2.1, weightsOf_filter, sum_sigma_columns]
    simp [Fin.ext_iff, Fin.coe_ofNat_eq_mod, n_aug_]
  · simp only [fun c => (correlatedHeading_Xsig_pred c).2.2.1, weightsOf_filter,
      sum_sigma_columns]
    simp [Fin.ext_iff, Fin.coe_ofNat_eq_mod, n_aug_]
    ring
  · simp only [fun c => (correlatedHeading_Xsig_pred c).2.2.2.1, weightsOf_filter,
      sum_sigma_columns]
    simp [Fin.ext_iff, Fin.coe_ofNat_eq_mod, n_aug_]
    ring
  · simp only [fun c => (correlatedHeading_Xsig_pred c).2.2.2.2, weightsOf_filter,
      sum_sigma_columns]
    simp [Fin.ext_iff, Fin.coe_ofNat_eq_mod, n_aug_]
    try ring

/-- The mean that Prediction stores for `correlatedHeadingFilter` after one
second. -/
theorem correlatedHeading_x :
    (UKF.Prediction (MathLib.real fun _ => correlatedHeadingFactor Real.pi (Real.sqrt 3))
        (correlatedHeadingFilter Real.pi) 1).x_ =
      fun r => if r.val = 0 then -5 / 3 else if r.val = 2 then 1 else 0 := by
  have h : (UKF.Prediction (MathLib.real fun _ => correlatedHeadingFactor Real.pi (Real.sqrt 3))
      (correlatedHeadingFilter Real.pi) 1).x_ =
      weightedMean
        (UKF.Prediction (MathLib.real fun _ => correlatedHeadingFactor Real.pi (Real.sqrt 3))
          (correlatedHeadingFilter Real.pi) 1).weights_
        (UKF.Prediction (MathLib.real fun _ => correlatedHeadingFactor Real.pi (Real.sqrt 3))
          (correlatedHeadingFilter Real.pi) 1).Xsig_pred_ := rfl
  have hm := correlatedHeading_row_means
  rw [h, correlatedHeading_weights]
  funext r
  rw [weightedMean_apply]
  fin_cases r
  · exact hm.1.trans (by norm_num)
  · exact hm.2.1.trans (by norm_num)
  · exact hm.2.2.1.trans (by norm_num)
  · exact hm.2.2.2.1.trans (by norm_num)
  · exact hm.2.2.2.2.trans (by norm_num)

/-- The predicted laser measurement for `correlatedHeadingFilter` after one
second. -/
theorem correlatedHeading_z_pred :
    weightedMean (weightsOf n_aug_ (-4 : ℝ))
      (lidarZsig
        (UKF.Prediction (MathLib.real fun _ => correlatedHeadingFactor Real.pi (Real.sqrt 3))
          (correlatedHeadingFilter Real.pi) 1).Xsig_pred_)
      = ![-5 / 3, 0] := by
  have hm := correlatedHeading_row_means
  funext r
  rw [weightedMean_apply]
  simp only [lidarZsig_apply]
  fin_cases r
  · exact hm.1
  · exact hm.2.1

/-- The weighted second moments, about the row means, of the sigma points
propagated from `correlatedHeadingFilter` over one second: each row against the
`px` row and against the `py` row. -/
theorem correlatedHeading_moments :
    (∑ c, weightsOf n_aug_ (-4 : ℝ) c *
      ((UKF.Prediction (MathLib.real fun _ => correlatedHeadingFactor Real.pi (Real.sqrt 3))
          (correlatedHeadingFilter Real.pi) 1).Xsig_pred_ 0 c - -5 / 3) *
      ((UKF.Prediction (MathLib.real fun _ => correlatedHeadingFactor Real.pi (Real.sqrt 3))
          (correlatedHeadingFilter Real.pi) 1).Xsig_pred_ 0 c - -5 / 3) = -151 / 144) ∧
    (∑ c, weightsOf n_aug_ (-4 : ℝ) c *
      ((UKF.Prediction (MathLib.real fun _ => correlatedHeadingFactor Real.pi (Real.sqrt 3))
          (correlatedHeadingFilter Real.pi) 1).Xsig_pred_ 0 c - -5 / 3) *
      ((UKF.Prediction (MathLib.real fun _ => correlatedHeadingFactor Real.pi (Real.sqrt 3))
          (correlatedHeadingFilter Real.pi) 1).Xsig_pred_ 1 c - 0) = 0) ∧
    (∑ c, weightsOf n_aug_ (-4 : ℝ) c *
      ((UKF.Prediction (MathLib.real fun _ => correlatedHeadingFactor Real.pi (Real.sqrt 3))
          (correlatedHeadingFilter Real.pi) 1).Xsig_pred_ 1 c - 0) *
      ((UKF.Prediction (MathLib.real fun _ => correlatedHeadingFactor Real.pi (Real.sqrt 3))
          (correlatedHeadingFilter Real.pi) 1).Xsig_pred_ 1 c - 0) = 3 / 400) ∧
    (∑ c, weightsOf n_aug_ (-4 : ℝ) c *
      ((UKF.Prediction (MathLib.real fun _ => correlatedHeadingFactor Real.pi (Real.sqrt 3))
          (correlatedHeadingFilter Real.pi) 1).Xsig_pred_ 2 c - 1) *
      ((UKF.Prediction (MathLib.real fun _ => correlatedHeadingFactor Real.pi (Real.sqrt 3))
          (correlatedHeadingFilter Real.pi) 1).Xsig_pred_ 0 c - -5 / 3) = -5 / 24) ∧
    (∑ c, weightsOf n_aug_ (-4 : ℝ) c *
      ((UKF.Prediction (MathLib.real fun _ => correlatedHeadingFactor Real.pi (Real.sqrt 3))
          (correlatedHeadingFilter Real.pi) 1).Xsig_pred_ 2 c - 1) *
      ((UKF.Prediction (MathLib.real fun _ => correlatedHeadingFactor Real.pi (Real.sqrt 3))
          (correlatedHeadingFilter Real.pi) 1).Xsig_pred_ 1 c - 0) = 0) ∧
    (∑ c, weightsOf n_aug_ (-4 : ℝ) c *
      ((UKF.Prediction (MathLib.real fun _ => correlatedHeadingFactor Real.pi (Real.sqrt 3))
          (correlatedHeadingFilter Real.pi) 1).Xsig_pred_ 3 c - 0) *
      ((UKF.Prediction (MathLib.real fun _ => correlatedHeadingFactor Real.pi (Real.sqrt 3))
          (correlatedHeadingFilter Real.pi) 1).Xsig_pred_ 0 c - -5 / 3) = 0) ∧
    (∑ c, weightsOf n_aug_ (-4 : ℝ) c *
      ((UKF.Prediction (MathLib.real fun _ => correlatedHeadingFactor Real.pi (Real.sqrt 3))
          (correlatedHeadingFilter Real.pi) 1).Xsig_pred_ 3 c - 0) *
      ((UKF.Prediction (MathLib.real fun _ => correlatedHeadingFactor Real.pi (Real.sqrt 3))
          (correlatedHeadingFilter Real.pi) 1).Xsig_pred_ 1 c - 0) = Real.pi / 20) ∧
    (∑ c, weightsOf n_aug_ (-4 : ℝ) c *
      ((UKF.Prediction (MathLib.real fun _ => correlatedHeadingFactor Real.pi (Real.sqrt 3))
          (correlatedHeadingFilter Real.pi) 1).Xsig_pred_ 4 c - 0) *
      ((UKF.Prediction (MathLib.real fun _ => correlatedHeadingFactor Real.pi (Real.sqrt 3))
          (correlatedHeadingFilter Real.pi) 1).Xsig_pred_ 0 c - -5 / 3) = 0) ∧
    (∑ c, weightsOf n_aug_ (-4 : ℝ) c *
      ((UKF.Prediction (MathLib.real fun _ => correlatedHeadingFactor Real.pi (Real.sqrt 3))
          (correlatedHeadingFilter Real.pi) 1).Xsig_pred_ 4 c - 0) *
      ((UKF.Prediction (MathLib.real fun _ => correlatedHeadingFactor Real.pi (Real.sqrt 3))
          (correlatedHeadingFilter Real.pi) 1).Xsig_pred_ 1 c - 0) = 0) := by
  have h3 : Real.sqrt 3 * Real.sqrt 3 = 3 := Real.mul_self_sqrt (by norm_num)
  refine ⟨?_, ?_, ?_, ?_, ?_, ?_, ?_, ?_, ?_⟩ <;>
    simp only [fun c => (correlatedHeading_Xsig_pred c).1,
      fun c => (correlatedHeading_Xsig_pred c).2.1, fun c => (correlatedHeading_Xsig_pred c).2.2.1,
      fun c => (correlatedHeading_Xsig_pred c).2.2.2.1,
      fun c => (correlatedHeading_Xsig_pred c).2.2.2.2, weightsOf_filter, sum_sigma_columns] <;>
    simp [Fin.ext_iff, Fin.coe_ofNat_eq_mod, n_aug_] <;>
    ring_nf <;>
    (try nlinarith [h3])

/-- The innovation covariance of the laser update after Prediction has run on
`correlatedHeadingFilter` for one second: diag(-1847/1800, 3/100). -/
theorem correlatedHeading_lidarS :
    (UKF.Prediction (MathLib.real fun _ => correlatedHeadingFactor Real.pi (Real.sqrt 3))
        (correlatedHeadingFilter Real.pi) 1).lidarS
      = Matrix.diagonal ![-1847 / 1800, 3 / 100] := by
  have hm := correlatedHeading_moments
  rw [lidarS_eq_sum, correlatedHeading_weights, correlatedHeading_z_pred]
  have hx : (UKF.Prediction (MathLib.real fun _ => correlatedHeadingFactor Real.pi (Real.sqrt 3))
      (correlatedHeadingFilter Real.pi) 1).std_laspx_ = 0.15 := rfl
  have hy : (UKF.Prediction (MathLib.real fun _ => correlatedHeadingFactor Real.pi (Real.sqrt 3))
      (correlatedHeadingFilter Real.pi) 1).std_laspy_ = 0.15 := rfl
  rw [hx, hy]
  ext a b
  rw [Matrix.add_apply, Matrix.sum_apply]
  simp only [vecMulVec_apply, Pi.smul_apply, Pi.sub_apply, smul_eq_mul, lidarZsig_apply]
  fin_cases a <;> fin_cases b
  · refine (congrArg (· + _) hm.1).trans ?_
    simp [Matrix.diagonal]; norm_num
  · refine (congrArg (· + _) hm.2.1).trans ?_
    simp [Matrix.diagonal]
  · refine (congrArg (· + _)
      ((Finset.sum_congr rfl (fun c _ => mul_right_comm _ _ _)).trans hm.2.1)).trans ?_
    simp [Matrix.diagonal]
  · refine (congrArg (· + _) hm.2.2.1).trans ?_
    simp [Matrix.diagonal]; norm_num

/-- The cross correlation of the laser update after Prediction has run on
`correlatedHeadingFilter` for one second. -/
theorem correlatedHeading_lidarTc :
    (UKF.Prediction (MathLib.real fun _ => correlatedHeadingFactor Real.pi (Real.sqrt 3))
        (correlatedHeadingFilter Real.pi) 1).lidarTc
      = fun r c =>
          if r.val = 0 ∧ c.val = 0 then -151 / 144
          else if r.val = 1 ∧ c.val = 1 then 3 / 400
          else if r.val = 2 ∧ c.val = 0 then -5 / 24
          else if r.val = 3 ∧ c.val = 1 then Real.pi / 20
          else 0 := by
  have hm := correlatedHeading_moments
  rw [lidarTc_eq_sum, correlatedHeading_weights, correlatedHeading_z_pred, correlatedHeading_x]
  ext a b
  rw [Matrix.sum_apply]
  simp only [vecMulVec_apply, Pi.smul_apply, Pi.sub_apply, smul_eq_mul, lidarZsig_apply]
  fin_cases a <;> fin_cases b
  · exact hm.1
  · exact hm.2.1
  · exact (Finset.sum_congr rfl (fun c _ => mul_right_comm _ _ _)).trans hm.2.1
  · exact hm.2.2.1
  · exact hm.2.2.2.1
  · exact hm.2.2.2.2.1
  · exact hm.2.2.2.2.2.1
  · exact hm.2.2.2.2.2.2.1
  · exact hm.2.2.2.2.2.2.2.1
  · exact hm.2.2.2.2.2.2.2.2

/-- The inverse of the innovation covariance diag(-1847/1800, 3/100). -/
theorem correlatedHeading_inverse_lidarS :
    inverse (UKF.Prediction (MathLib.real fun _ => correlatedHeadingFactor Real.pi (Real.sqrt 3))
        (correlatedHeadingFilter Real.pi) 1).lidarS
      = Matrix.diagonal ![-1800 / 1847, 100 / 3] := by
  rw [inverse_eq_inv, correlatedHeading_lidarS]
  apply Matrix.inv_eq_right_inv
  rw [Matrix.diagonal_mul_diagonal]
  ext i j
  fin_cases i <;> fin_cases j <;> simp [Matrix.diagonal, Matrix.one_apply] <;> norm_num

/-- Given a laser measurement one second after the previous one,
ProcessMeasurement on `correlatedHeadingFilter` runs Prediction with
`delta_t = 1` and hands the result to UpdateLidar. -/
theorem correlatedHeading_tracking_call :
    (UKF.ProcessMeasurement (MathLib.real fun _ => correlatedHeadingFactor Real.pi (Real.sqrt 3))
        (correlatedHeadingFilter Real.pi) (laserMeasurement 1000000 0 0)).P_ =
      (UKF.UpdateLidar (MathLib.real fun _ => correlatedHeadingFactor Real.pi (Real.sqrt 3))
        (UKF.Prediction (MathLib.real fun _ => correlatedHeadingFactor Real.pi (Real.sqrt 3))
          (correlatedHeadingFilter Real.pi) 1)
        (laserMeasurement 1000000 0 0)).P_ := by
  have hi : (correlatedHeadingFilter Real.pi).is_initialized_ = true := rfl
  have hdt : (((laserMeasurement 1000000 (0 : ℝ) 0).timestamp_ -
      (correlatedHeadingFilter Real.pi).time_us_ : Int) : ℝ) / 1000000.0 = 1 := by
    have h : (laserMeasurement 1000000 (0 : ℝ) 0).timestamp_ -
      (correlatedHeadingFilter Real.pi).time_us_ = 1000000 := rfl
    rw [h]
    norm_num
  simp only [UKF.ProcessMeasurement, hi, Bool.not_true, Bool.false_eq_true, ↓reduceIte, hdt]
  rw [if_pos ⟨rfl, rfl⟩]
  rfl

/-- C11, counterexample.  `correlatedHeadingFilter π` holds a covariance with the
Cholesky factorisation `L Lᵀ` (lower triangular `L`, positive diagonal).  Given a
laser measurement one second later, ProcessMeasurement runs Prediction with
`delta_t = 1` and then UpdateLidar.  For the state that Prediction leaves, the
innovation covariance is diag(-1847/1800, 3/100), invertible but not positive
definite, and the trace of the covariance after UpdateLidar is larger than the
trace before it. -/
theorem C11_update_raises_trace :
    (correlatedHeadingFactor Real.pi (Real.sqrt 3)
          * (correlatedHeadingFactor Real.pi (Real.sqrt 3))ᵀ
        = (correlatedHeadingFilter Real.pi).P_aug ∧
      (∀ i j, i < j → correlatedHeadingFactor Real.pi (Real.sqrt 3) i j = 0) ∧
      (∀ i, 0 < correlatedHeadingFactor Real.pi (Real.sqrt 3) i i)) ∧
    (UKF.Prediction (MathLib.real fun _ => correlatedHeadingFactor Real.pi (Real.sqrt 3))
        (correlatedHeadingFilter Real.pi) 1).lidarS
      = Matrix.diagonal ![-1847 / 1800, 3 / 100] ∧
    (UKF.Prediction (MathLib.real fun _ => correlatedHeadingFactor Real.pi (Real.sqrt 3))
        (correlatedHeadingFilter Real.pi) 1).lidarS.det ≠ 0 ∧
    (UKF.ProcessMeasurement (MathLib.real fun _ => correlatedHeadingFactor Real.pi (Real.sqrt 3))
        (correlatedHeadingFilter Real.pi) (laserMeasurement 1000000 0 0)).P_ =
      (UKF.UpdateLidar (MathLib.real fun _ => correlatedHeadingFactor Real.pi (Real.sqrt 3))
        (UKF.Prediction (MathLib.real fun _ => correlatedHeadingFactor Real.pi (Real.sqrt 3))
          (correlatedHeadingFilter Real.pi) 1)
        (laserMeasurement 1000000 0 0)).P_ ∧
    Matrix.trace
        (UKF.Prediction (MathLib.real fun _ => correlatedHeadingFactor Real.pi (Real.sqrt 3))
          (correlatedHeadingFilter Real.pi) 1).P_ <
      Matrix.trace
        (UKF.UpdateLidar (MathLib.real fun _ => correlatedHeadingFactor Real.pi (Real.sqrt 3))
          (UKF.Prediction (MathLib.real fun _ => correlatedHeadingFactor Real.pi (Real.sqrt 3))
            (correlatedHeadingFilter Real.pi) 1)
          (laserMeasurement 1000000 0 0)).P_ := by
  refine ⟨correlatedHeadingFactor_cholesky, correlatedHeading_lidarS, ?_,
    correlatedHeading_tracking_call, ?_⟩
  · rw [correlatedHeading_lidarS, Matrix.det_diagonal]
    simp [Fin.prod_univ_two]
  · simp only [UKF.UpdateLidar]
    rw [correlatedHeading_inverse_lidarS, correlatedHeading_lidarS, correlatedHeading_lidarTc,
      Matrix.trace_sub]
    have key : ∀ a b : ℝ, b < 0 → a < a - b := fun a b h => by linarith
    apply key
    simp [Matrix.trace, Fin.sum_univ_five, Matrix.mul_apply, Fin.sum_univ_two, Matrix.diagonal,
      Fin.ext_iff, Fin.coe_ofNat_eq_mod, n_x_]
    nlinarith [Real.pi_gt_three, Real.pi_lt_315, Real.pi_pos]
